import Mathlib

/-!
Verification development for the leboncoin-apify-actor repository.

The Python sources (`src/main.py`, `src/url_parsing.py`) are shallowly embedded
below.  Python dicts are modelled as ordered association lists (insertion order
preserved, keys replaced in place on re-assignment, exactly as CPython dicts
behave).  Machine integers are `Int`/`Nat` (Python ints are unbounded, so no
wrap-around modelling is required).  Fallible operations (`int(...)`,
`float(...)`, fetches that may raise) return `Option`.  `datetime` values only
ever flow into `(datetime.now() - d).days`, so a publication date is represented
directly by that age-in-days integer; the formatting of timestamps to strings is
not observable by any theorem here and a datetime is kept abstract in record
values.
-/

namespace Leboncoin

/-! ### Ordered-dict primitives (CPython dict semantics) -/

/-- An ordered string-keyed dictionary: insertion order is kept, assigning to an
existing key replaces the value in place. -/
abbrev Dict (α : Type) := List (String × α)

/-- `d[k]` lookup: first (and, for dicts built by `dput`, only) binding of `k`. -/
def dget {α : Type} : Dict α → String → Option α
  | [], _ => none
  | p :: rest, k => if p.1 = k then some p.2 else dget rest k

/-- `d[k] = v` assignment: replaces in place if `k` is present, appends otherwise. -/
def dput {α : Type} : Dict α → String → α → Dict α
  | [], k, v => [(k, v)]
  | p :: rest, k, v => if p.1 = k then (k, v) :: rest else p :: dput rest k v

/-- `d.setdefault(k, v)`: inserts only when `k` is absent. -/
def dsetdefault {α : Type} : Dict α → String → α → Dict α
  | [], k, v => [(k, v)]
  | p :: rest, k, v => if p.1 = k then p :: rest else p :: dsetdefault rest k v

/-- `d.update(e)`: assigns every binding of `e` into `d`, in `e`'s order. -/
def dupdate {α : Type} (d e : Dict α) : Dict α :=
  e.foldl (fun acc p => dput acc p.1 p.2) d

/-! ### Python string primitives

Character-list implementations of the Python string operations the sources
use (`split`, `strip`, `lower`, `replace`, `startswith`, joining).  They are
written with structural recursion so that every claim can be settled by
kernel evaluation on concrete inputs. -/

/-- Core of Python `s.split(sep)` for a non-empty separator: scan left to
right, breaking at each non-overlapping occurrence of `sep`.  The fuel is the
input length, consumed one unit per examined character. -/
def pySplitAux (sep : List Char) : Nat → List Char → List (List Char)
  | 0, cs => [cs]
  | fuel + 1, cs =>
    match cs with
    | [] => [[]]
    | c :: rest =>
      if sep.isPrefixOf cs then
        [] :: pySplitAux sep fuel (cs.drop sep.length)
      else
        match pySplitAux sep fuel rest with
        | [] => [[c]]
        | g :: gs => (c :: g) :: gs

/-- Python `s.split(sep)` at the character level. -/
def splitChars (sep cs : List Char) : List (List Char) :=
  pySplitAux sep cs.length cs

/-- Python `s.split(sep)` (non-empty separator). -/
def pySplit (s sep : String) : List String :=
  (splitChars sep.data s.data).map String.mk

/-- Python `sep.join(parts)`. -/
def joinSep (sep : String) : List String → String
  | [] => ""
  | [x] => x
  | x :: y :: xs => x ++ sep ++ joinSep sep (y :: xs)

/-- The whitespace characters Python `str.strip()` removes (the ASCII ones;
no other whitespace occurs in the inputs here). -/
def isSpaceChar (c : Char) : Bool :=
  c = ' ' || c = '\t' || c = '\n' || c = '\r'

/-- Python `s.strip()`. -/
def pyStrip (s : String) : String :=
  String.mk (((s.data.dropWhile isSpaceChar).reverse.dropWhile isSpaceChar).reverse)

/-- Python `s.lower()` (ASCII). -/
def pyLower (s : String) : String :=
  String.mk (s.data.map Char.toLower)

/-- Python `s.replace(pat, rep)` for a non-empty pattern. -/
def pyReplace (s pat rep : String) : String :=
  joinSep rep (pySplit s pat)

/-- Python `s.startswith(pat)`. -/
def pyStartsWith (s pat : String) : Bool :=
  pat.data.isPrefixOf s.data

/-! ### Attribute values of a listing object

A raw listing object (as produced by the external `lbc` search client) is an
open-ended bag of public attributes.  An attribute value is `None`, an int, a
string, a datetime, or a list; a datetime is carried as its age in whole days at
scrape time, since `(datetime.now() - d).days` is the only computation the code
performs on one. -/

inductive AttrVal : Type where
  | vnone : AttrVal
  | vint (n : Int) : AttrVal
  | vstr (s : String) : AttrVal
  | vdate (ageDays : Int) : AttrVal
deriving DecidableEq, Repr

/-- Python truthiness of an attribute value (`None`/`0`/`""` are falsy,
a datetime is always truthy). -/
def AttrVal.truthy : AttrVal → Bool
  | .vnone => false
  | .vint n => n != 0
  | .vstr s => s != ""
  | .vdate _ => true

/-- A raw listing object: the `id` and `first_publication_date` attributes the
engine reads, plus the remaining public attributes of its `__dict__`.
`id = none` / `first_publication_date = none` model the attribute being absent;
`first_publication_date` is the listing's age in days at scrape time (a `None`
date is folded into `none`, which the truthiness test treats identically). -/
structure Ad where
  id : Option AttrVal := none
  first_publication_date : Option Int := none
  attrs : List (String × AttrVal) := []
deriving DecidableEq, Repr

/-- `hasattr(ad, 'id') and ad.id`: the usable identifier of a listing, if any
(from `ScraperEngine._scrape_single_page`, src/main.py lines 913-914). -/
def Ad.usableId (ad : Ad) : Option AttrVal :=
  match ad.id with
  | some v => if v.truthy then some v else none
  | none => none

/-- `hasattr(ad, 'first_publication_date') and ad.first_publication_date`
followed by `(datetime.now() - ad.first_publication_date).days`
(src/main.py lines 923-924): the age in days, when a date is present. -/
def Ad.ageDays (ad : Ad) : Option Int := ad.first_publication_date

/-! ### DataProcessor.convert_to_serializable and AdTransformer.create_detailed_ad -/

/-- A normalized listing record: a flat ordered mapping from field name to
serialized value. -/
abbrev AdData := Dict AttrVal

/-- `DataProcessor.convert_to_serializable` (src/main.py lines 755-782): scalar
values pass through unchanged.  (The source additionally recurses into lists,
tuples, dicts and nested objects and renders a `datetime` through `strftime`;
no claim distinguishes those conversions, so scalar attribute values suffice
and a datetime stays abstract.) -/
def convert_to_serializable : AttrVal → AttrVal
  | .vnone => .vnone
  | .vint n => .vint n
  | .vstr s => .vstr s
  | .vdate a => .vdate a

/-- Placeholder for `datetime.now().strftime("%Y-%m-%d %H:%M:%S")`: the
wall-clock capture timestamp, whose value no claim inspects. -/
def nowTimestamp : AttrVal := .vstr "%Y-%m-%d %H:%M:%S"

/-- `AdTransformer.create_detailed_ad` (src/main.py lines 792-816): copies every
public (not underscore-prefixed) non-`None` attribute of the listing's
`__dict__` through `convert_to_serializable`, then stamps `scraped_at`,
`search_category` and `search_location` from the search context. -/
def create_detailed_ad (ad : Ad) (ctx : String × String) : AdData :=
  let base : AdData :=
    (match ad.id with
     | some v => if v ≠ .vnone then [("id", convert_to_serializable v)] else []
     | none => []) ++
    (match ad.first_publication_date with
     | some a => [("first_publication_date", convert_to_serializable (.vdate a))]
     | none => []) ++
    ad.attrs.filterMap (fun p =>
      if pyStartsWith p.1 "_" || p.2 == .vnone then none
      else some (p.1, convert_to_serializable p.2))
  let d := dput base "scraped_at" nowTimestamp
  let d := dput d "search_category" (.vstr ctx.1)
  dput d "search_location" (.vstr ctx.2)

/-- The static search context of `_scrape_single_page` (src/main.py line 908). -/
def searchContext : String × String := ("URL", "Direct URL")

/-- Normalization exactly as the engine applies it. -/
def normalizeAd (ad : Ad) : AdData := create_detailed_ad ad searchContext

/-! ### Python scalar-parsing primitives used by the URL parser -/

/-- Decimal digit value of an ASCII digit. -/
def digitVal? (c : Char) : Option Nat :=
  if c.isDigit then some (c.toNat - 48) else none

/-- The value of a non-empty all-digit character run, `none` otherwise. -/
def decDigits? (cs : List Char) : Option Nat :=
  if cs.isEmpty then none
  else
    cs.foldl
      (fun acc c =>
        match acc, digitVal? c with
        | some a, some d => some (10 * a + d)
        | _, _ => none)
      (some 0)

/-- Python `int(s)` on the decimal forms the sources feed it: an optional sign
followed by digits.  (Surrounding whitespace and digit-group underscores, which
Python also accepts, never occur in the parsed URLs and are not modelled.)
`none` models `ValueError`. -/
def pyInt? (s : String) : Option Int :=
  match s.data with
  | '-' :: rest => (decDigits? rest).map (fun n => -(n : Int))
  | '+' :: rest => (decDigits? rest).map (fun n => (n : Int))
  | cs => (decDigits? cs).map (fun n => (n : Int))

/-- Unsigned decimal float body: `digits`, `digits.digits`, `.digits` or
`digits.`, as a rational. -/
def pyFloatCore? (cs : List Char) : Option Rat :=
  match splitChars ['.'] cs with
  | [ip] => (decDigits? ip).map (fun n => (n : Rat))
  | [ip, fp] =>
    if ip.isEmpty && fp.isEmpty then none
    else
      match (if ip.isEmpty then some 0 else decDigits? ip),
            (if fp.isEmpty then some 0 else decDigits? fp) with
      | some a, some b => some ((a : Rat) + (b : Rat) / ((10 : Rat) ^ fp.length))
      | _, _ => none
  | _ => none

/-- Python `float(s)` on plain decimal literals (exponent, infinity and
whitespace forms never occur in the parsed URLs and are not modelled).
Coordinates are kept exact as rationals.  `none` models `ValueError`. -/
def pyFloat? (s : String) : Option Rat :=
  match s.data with
  | '-' :: rest => (pyFloatCore? rest).map (fun q => -q)
  | '+' :: rest => pyFloatCore? rest
  | cs => pyFloatCore? cs

/-- Python `str.isdigit()` (ASCII digits). -/
def pyIsDigit (s : String) : Bool :=
  !s.isEmpty && s.data.all Char.isDigit

/-- Python `pat in s` for a non-empty pattern `pat`. -/
def containsSub (s pat : String) : Bool :=
  (pySplit s pat).length ≥ 2

/-- Whether `needle` occurs as a contiguous substring of `hay`. -/
def strOccursIn (needle hay : String) : Bool :=
  (List.range (hay.data.length + 1)).any
    (fun i => needle.data.isPrefixOf (hay.data.drop i))

/-- Hexadecimal digit value. -/
def hexDigitVal? (c : Char) : Option Nat :=
  if c.isDigit then some (c.toNat - 48)
  else if 'a' ≤ c && c ≤ 'f' then some (c.toNat - 87)
  else if 'A' ≤ c && c ≤ 'F' then some (c.toNat - 55)
  else none

/-- Percent-decoding core of `urllib.parse.unquote`: a `%` followed by two hex
digits becomes the encoded byte, anything else passes through.  (Multi-byte
UTF-8 sequences, which never occur in the parsed URLs here, are not modelled.) -/
def unquoteChars : List Char → List Char
  | [] => []
  | '%' :: a :: b :: rest =>
    match hexDigitVal? a, hexDigitVal? b with
    | some ha, some hb => Char.ofNat (16 * ha + hb) :: unquoteChars rest
    | _, _ => '%' :: unquoteChars (a :: b :: rest)
  | c :: rest => c :: unquoteChars rest

/-- `urllib.parse.unquote` (as imported by src/url_parsing.py line 8). -/
def unquote (s : String) : String := String.mk (unquoteChars s.data)

/-- `arg.split('=', 1)` guarded by `'=' not in arg` (src/url_parsing.py
lines 58-61): the key and the (still-quoted) value, or `none` when the
argument has no `=`. -/
def splitEq1 (arg : String) : Option (String × String) :=
  match pySplit arg "=" with
  | [] => none
  | [_] => none
  | k :: rest => some (k, joinSep "=" rest)

/-! ### External lbc enums (black-box search-client collaborator) -/

/-- Models `lbc.Sort`. -/
inductive LbcSort : Type where
  | NEWEST | CHEAPEST | EXPENSIVE | RELEVANCE
deriving DecidableEq, Repr

/-- Models `lbc.OwnerType`. -/
inductive LbcOwnerType : Type where
  | PRIVATE | PRO
deriving DecidableEq, Repr

/-- Models `lbc.AdType`. -/
inductive LbcAdType : Type where
  | OFFER | DEMAND
deriving DecidableEq, Repr

/-- Models `lbc.Category`.  The parser's loop
`for cat in lbc.Category: if cat.value == str(category_id)` resolves a numeric
id against the external enum's members, falling back to `TOUTES_CATEGORIES`;
the enum's member set lives in the external library, so membership is
abstracted by treating every id as resolvable.  No claim depends on it. -/
inductive Category : Type where
  | TOUTES_CATEGORIES
  | member (id : Int)
deriving DecidableEq, Repr

/-- The id-to-enum resolution of src/url_parsing.py lines 68-80 (see
`Category`). -/
def categoryResolve (n : Int) : Category := .member n

/-- Models `lbc.City` (constructed at src/url_parsing.py lines 185-207). -/
structure City where
  lat : Rat
  lng : Rat
  radius : Int
  city : String
deriving DecidableEq, Repr

/-! ### LeboncoinURLParser (src/url_parsing.py) -/

/-- `LeboncoinURLParser.SORT_MAP` (src/url_parsing.py lines 21-27). -/
def sortMap (v : String) : Option LbcSort :=
  if v == "time" then some .NEWEST
  else if v == "price" then some .CHEAPEST
  else if v == "price_asc" then some .EXPENSIVE
  else if v == "price_desc" then some .CHEAPEST
  else if v == "relevance" then some .RELEVANCE
  else none

/-- `CITY_COORDINATES` of `LeboncoinURLParser._get_city_coordinates`
(src/url_parsing.py lines 217-256). -/
def cityCoordinates : List (String × Rat × Rat) :=
  [("paris", 48.8566, 2.3522),
   ("lyon", 45.7640, 4.8357),
   ("marseille", 43.2965, 5.3698),
   ("toulouse", 43.6047, 1.4442),
   ("nice", 43.7102, 7.2620),
   ("nantes", 47.2184, -1.5536),
   ("strasbourg", 48.5734, 7.7521),
   ("montpellier", 43.6110, 3.8767),
   ("bordeaux", 44.8378, -0.5792),
   ("lille", 50.6292, 3.0573),
   ("rennes", 48.1173, -1.6778),
   ("reims", 49.2583, 4.0317),
   ("saint_etienne", 45.09, 4.39),
   ("toulon", 43.1242, 5.9280),
   ("le_havre", 49.4944, 0.1079),
   ("grenoble", 45.1885, 5.7245),
   ("dijon", 47.3220, 5.0415),
   ("angers", 47.4784, -0.5632),
   ("nimes", 43.8367, 4.3601),
   ("villeurbanne", 45.7667, 4.8833),
   ("saint_denis", 48.9361, 2.3574),
   ("le_mans", 48.0061, 0.1996),
   ("aix_en_provence", 43.5263, 5.4454),
   ("clermont_ferrand", 45.7772, 3.0870),
   ("brest", 48.3905, -4.4860),
   ("tours", 47.3941, 0.6848),
   ("limoges", 45.8336, 1.2611),
   ("amiens", 49.8943, 2.2958),
   ("perpignan", 42.6886, 2.8948),
   ("metz", 49.1193, 6.1757),
   ("nanterre", 48.8938, 2.2064),
   ("boulogne_billancourt", 48.8355, 2.2413),
   ("orleans", 47.9029, 1.9093),
   ("mulhouse", 47.7508, 7.3359),
   ("rouen", 49.4432, 1.0993),
   ("caen", 49.1829, -0.3707),
   ("dunkerque", 51.0343, 2.3768),
   ("nancy", 48.6921, 6.1844)]

/-- City-name normalization of `_get_city_coordinates`
(src/url_parsing.py line 258). -/
def normalizeCityName (s : String) : String :=
  pyReplace (pyReplace (pyLower s) " " "_") "-" "_"

/-- `LeboncoinURLParser._get_city_coordinates` (src/url_parsing.py
lines 213-270): exact normalized match, then first partial (substring either
way) match, defaulting to Paris.  The `postal_code` parameter is accepted and
ignored, as in the source. -/
def getCityCoordinates (cityName : String) (_postalCode : String) : Rat × Rat :=
  let norm := normalizeCityName cityName
  match cityCoordinates.find? (fun p => p.1 == norm) with
  | some p => p.2
  | none =>
    match cityCoordinates.find?
        (fun p => strOccursIn norm p.1 || strOccursIn p.1 norm) with
    | some p => p.2
    | none => (48.8566, 2.3522)

/-- `LeboncoinURLParser._parse_single_location` (src/url_parsing.py
lines 161-211).  `none` models both the implicit fall-through `None` and the
caught exception path. -/
def parseSingleLocation (ls : String) : Option City :=
  if containsSub ls "__" then
    let parts := pySplit ls "__"
    let cityPart := parts.headD ""
    let coordsPart := (parts.drop 1).headD ""
    let cityParts := pySplit cityPart "_"
    let cityName :=
      if cityParts.length ≥ 2 && pyIsDigit (cityParts.getLastD "") then
        joinSep "_" cityParts.dropLast
      else cityPart
    let coordsParts := pySplit coordsPart "_"
    if coordsParts.length ≥ 2 then
      match pyFloat? (coordsParts.headD ""),
            pyFloat? ((coordsParts.drop 1).headD "") with
      | some lat, some lng =>
        if coordsParts.length > 2 then
          match pyInt? ((coordsParts.drop 2).headD "") with
          | some r => some { lat := lat, lng := lng, radius := r, city := cityName }
          | none => none
        else some { lat := lat, lng := lng, radius := 0, city := cityName }
      | _, _ => none
    else none
  else
    let cityParts := pySplit ls "_"
    if cityParts.length ≥ 2 && pyIsDigit (cityParts.getLastD "") then
      let cityName := joinSep "_" cityParts.dropLast
      let coords := getCityCoordinates cityName (cityParts.getLastD "")
      some { lat := coords.1, lng := coords.2, radius := 0, city := cityName }
    else none

/-- `LeboncoinURLParser._parse_locations` (src/url_parsing.py lines 146-159). -/
def parseLocations (s : String) : List City :=
  (pySplit s ",").foldl
    (fun acc part =>
      match parseSingleLocation (pyStrip part) with
      | some c => acc ++ [c]
      | none => acc)
    []

/-- The result of `LeboncoinURLParser._parse_generic_value`
(src/url_parsing.py lines 322-360). -/
inductive GVal : Type where
  | grange (lo hi : Int) : GVal
  | glist (xs : List String) : GVal
  | gint (n : Int) : GVal
  | gstr (s : String) : GVal
deriving DecidableEq, Repr

/-- `LeboncoinURLParser._parse_generic_value` (src/url_parsing.py
lines 322-360): a two-part `-` value parses as a range (`min-` lower bound 0,
`-max` sentinel upper bound 9999999), with `ValueError` falling through; then
a comma-separated value becomes a list of trimmed strings; then a plain
integer; otherwise the raw string. -/
def parseGenericValue (value : String) : GVal :=
  let parts := pySplit value "-"
  let rangeRes : Option (Int × Int) :=
    if containsSub value "-" && parts.length == 2 then
      match parts with
      | [p1, p2] =>
        if p1 == "min" then (pyInt? p2).map (fun m => (0, m))
        else if p2 == "max" then (pyInt? p1).map (fun m => (m, 9999999))
        else
          match pyInt? p1, pyInt? p2 with
          | some a, some b => some (a, b)
          | _, _ => none
      | _ => none
    else none
  match rangeRes with
  | some (a, b) => .grange a b
  | none =>
    if containsSub value "," then
      .glist ((pySplit value ",").map pyStrip)
    else
      match pyInt? value with
      | some n => .gint n
      | none => .gstr value

/-- A search-argument value (the values a `SearchQuery` mapping can hold). -/
inductive SVal : Type where
  | sstr (s : String) : SVal
  | scat (c : Category) : SVal
  | slocs (ls : List City) : SVal
  | sowner (o : LbcOwnerType) : SVal
  | ssort (s : LbcSort) : SVal
  | sadtype (a : LbcAdType) : SVal
  | sbool (b : Bool) : SVal
  | srange (lo hi : Int) : SVal
  | slist (xs : List String) : SVal
  | sint (n : Int) : SVal
deriving DecidableEq, Repr

/-- A search-configuration mapping (`search_args`). -/
abbrev SearchConfig := Dict SVal

/-- The parameter-dispatch of one query argument in
`LeboncoinURLParser.parse_url_to_search_config` (src/url_parsing.py
lines 61-129), acting on the `(search_config, kwargs_filters)` pair; `value`
is the already percent-decoded parameter value.  Special
keys go to `search_config`; `page` is skipped; any other key goes through
`_parse_generic_value` into `kwargs_filters` (ranges stay ranges, lists stay
lists, single values become one-element string lists). -/
def parseKV (sc kw : SearchConfig) (key : String) (value : String) :
    SearchConfig × SearchConfig :=
  if key == "text" then (dput sc "text" (.sstr value), kw)
  else if key == "category" then
    match pyInt? value with
    | some n => (dput sc "category" (.scat (categoryResolve n)), kw)
    | none => (sc, kw)
  else if key == "locations" then
    if (parseLocations value).isEmpty then (sc, kw)
    else (dput sc "locations" (.slocs (parseLocations value)), kw)
  else if key == "owner_type" then
    if value == "private" then (dput sc "owner_type" (.sowner .PRIVATE), kw)
    else if value == "pro" then (dput sc "owner_type" (.sowner .PRO), kw)
    else (sc, kw)
  else if key == "sort" then
    match sortMap value with
    | some s => (dput sc "sort" (.ssort s), kw)
    | none => (sc, kw)
  else if key == "order" then
    if value == "desc" then
      if dget sc "sort" = some (.ssort .EXPENSIVE) then
        (dput sc "sort" (.ssort .CHEAPEST), kw)
      else (sc, kw)
    else if value == "asc" then
      if dget sc "sort" = some (.ssort .CHEAPEST) then
        (dput sc "sort" (.ssort .EXPENSIVE), kw)
      else (sc, kw)
    else (sc, kw)
  else if key == "ad_type" then
    if value == "offer" then (dput sc "ad_type" (.sadtype .OFFER), kw)
    else if value == "demand" then (dput sc "ad_type" (.sadtype .DEMAND), kw)
    else (sc, kw)
  else if key == "shippable" then
    if value == "1" then (dput sc "shippable" (.sbool true), kw) else (sc, kw)
  else if key == "page" then (sc, kw)
  else
    match parseGenericValue value with
    | .grange a b => (sc, dput kw key (.srange a b))
    | .glist xs => (sc, dput kw key (.slist xs))
    | .gint n => (sc, dput kw key (.slist [toString n]))
    | .gstr s => (sc, dput kw key (.slist [s]))

/-- The `for arg in args` loop body (src/url_parsing.py lines 57-61):
arguments without `=` are skipped, the rest are split at the first `=` and
dispatched. -/
def parseStep (acc : SearchConfig × SearchConfig) (arg : String) :
    SearchConfig × SearchConfig :=
  match splitEq1 arg with
  | none => acc
  | some (key, rawValue) => parseKV acc.1 acc.2 key (unquote rawValue)

/-- The `for arg in args` loop over the `&`-split query arguments. -/
def processArgs (args : List String) : SearchConfig × SearchConfig :=
  args.foldl parseStep ([], [])

/-- The tail of `parse_url_to_search_config` (src/url_parsing.py
lines 131-140): merge the kwargs filters into the config and apply the
`sort`/`ad_type`/`limit` defaults. -/
def finishConfig (p : SearchConfig × SearchConfig) : SearchConfig :=
  let sc := if p.2.isEmpty then p.1 else dupdate p.1 p.2
  let sc := dsetdefault sc "sort" (.ssort .NEWEST)
  let sc := dsetdefault sc "ad_type" (.sadtype .OFFER)
  dsetdefault sc "limit" (.sint 35)

/-- `LeboncoinURLParser.parse_url_to_search_config` (src/url_parsing.py
lines 34-144): a URL without `?` yields the empty configuration; otherwise the
query string (between the first and second `?`) is split on `&` and processed. -/
def parse_url_to_search_config (url : String) : SearchConfig :=
  if !url.data.contains '?' then []
  else
    let qs :=
      match pySplit url "?" with
      | _ :: q :: _ => q
      | _ => ""
    finishConfig (processArgs (pySplit qs "&"))

/-- `parse_leboncoin_url` (src/url_parsing.py lines 405-415). -/
def parse_leboncoin_url (url : String) : SearchConfig :=
  parse_url_to_search_config url

/-- The actor's input mapping.  One optional field per key the repository's code
or UI mentions; `none` models the key being absent from the input dict.  The
`consecutive_old_limit` field models the key of the same name that `ui.py`
places in the input mapping. -/
structure InputData where
  search_args : Option SearchConfig := none
  direct_url : Option String := none
  max_pages : Option Int := none
  limit_per_page : Option Int := none
  delay_between_pages : Option Int := none
  max_age_days : Option Int := none
  consecutive_old_limit : Option Int := none
  output_format : Option String := none
deriving Repr

/-- The engine configuration produced by `Config.__init__`. -/
structure Config where
  search_args : SearchConfig := []
  direct_url : String := ""
  max_pages : Int := 10
  limit_per_page : Int := 35
  delay_between_pages : Int := 0
  max_age_days : Int := 0
  consecutive_old_limit : Int := 5
  output_format : String := "detailed"
deriving Repr

/-- `Config.__init__` (src/main.py lines 68-100): a truthy (non-empty)
`search_args` input wins over URL parsing; otherwise the stripped `direct_url`
is parsed with `parse_leboncoin_url`.  Pagination, delay, age and output keys
take their documented defaults.  `consecutive_old_limit` is assigned the
constant 5 (src/main.py line 94); no input key is consulted for it. -/
def Config.ofInput (i : InputData) : Config :=
  let direct : Option SearchConfig :=
    match i.search_args with
    | some sa => if sa.isEmpty then none else some sa
    | none => none
  let sargsUrl :=
    match direct with
    | some sa => (sa, "")
    | none =>
      let raw := pyStrip (i.direct_url.getD "")
      (parse_leboncoin_url raw, raw)
  { search_args := sargsUrl.1
    direct_url := sargsUrl.2
    max_pages := i.max_pages.getD 10
    limit_per_page := i.limit_per_page.getD 35
    delay_between_pages := i.delay_between_pages.getD 0
    max_age_days := i.max_age_days.getD 0
    consecutive_old_limit := 5
    output_format := i.output_format.getD "detailed" }

/-! ### Crawl statistics (ScraperEngine.__init__, src/main.py lines 831-840) -/

structure Stats where
  total_ads : Nat := 0
  unique_ads : Nat := 0
  duplicates : Nat := 0
  locations_processed : Nat := 0
  pages_processed : Nat := 0
  errors : Nat := 0
deriving DecidableEq, Repr

/-! ### The per-page ad loop (ScraperEngine._scrape_single_page, src/main.py 877-950) -/

/-- Result of processing one page's listings: the page accumulator, the
should-stop flag, the updated seen-id set and stats, and (ghost, for
specification only) the trace of listings actually examined together with the
final value of the local `old_ads_count` streak counter. -/
structure PageOut where
  page_ads : List AdData
  should_stop : Bool
  seen : List AttrVal
  stats : Stats
  trace : List Ad
  oldCount : Nat := 0
deriving Repr

/-- Record one examined listing at the head of the ghost trace. -/
def PageOut.consTrace (ad : Ad) (o : PageOut) : PageOut :=
  { o with trace := ad :: o.trace }

/-- The `for ad in result.ads` loop body of `_scrape_single_page`
(src/main.py lines 911-939): skip listings without a usable id; count and skip
duplicates; under an age threshold, grow the consecutive-old streak on old
listings (stopping the whole crawl at the configured limit) and reset it on any
other listing; otherwise normalize, mark seen, and accumulate.  The
per-listing transform `try/except` is unreachable for the pure transform
modelled here, so the error branch at line 939 does not appear. -/
def processAds (cfg : Config) : List Ad → List AttrVal → Nat → Stats → List AdData → PageOut
  | [], seen, oldCount, stats, acc =>
    { page_ads := acc, should_stop := false, seen := seen, stats := stats,
      trace := [], oldCount := oldCount }
  | ad :: rest, seen, oldCount, stats, acc =>
    match ad.usableId with
    | none => (processAds cfg rest seen oldCount stats acc).consTrace ad
    | some v =>
      if v ∈ seen then
        (processAds cfg rest seen oldCount
          { stats with duplicates := stats.duplicates + 1 } acc).consTrace ad
      else if cfg.max_age_days > 0 then
        match ad.ageDays with
        | some age =>
          if age > cfg.max_age_days then
            if oldCount + 1 ≥ cfg.consecutive_old_limit.toNat then
              { page_ads := acc, should_stop := true, seen := seen, stats := stats,
                trace := [ad], oldCount := oldCount + 1 }
            else
              (processAds cfg rest seen (oldCount + 1) stats acc).consTrace ad
          else
            (processAds cfg rest (v :: seen) 0 stats
              (acc ++ [normalizeAd ad])).consTrace ad
        | none =>
          (processAds cfg rest (v :: seen) 0 stats
            (acc ++ [normalizeAd ad])).consTrace ad
      else
        (processAds cfg rest (v :: seen) oldCount stats
          (acc ++ [normalizeAd ad])).consTrace ad

/-- A page fetch outcome from the search client: `none` models
`client.search(...)` raising, `some ads` models a successful result whose
`.ads` is `ads` (absent `.ads` is folded into the empty list, which the code
treats identically at line 901). -/
abbrev FetchResult := Option (List Ad)

/-- `ScraperEngine._scrape_single_page` (src/main.py lines 877-950): on a raised
fetch error, count it and stop; on an empty page, stop without error; otherwise
run the ad loop starting from a fresh (page-local) consecutive-old counter. -/
def scrapeSinglePage (cfg : Config) (seen : List AttrVal) (stats : Stats) :
    FetchResult → PageOut
  | none =>
    { page_ads := [], should_stop := true, seen := seen,
      stats := { stats with errors := stats.errors + 1 }, trace := [] }
  | some ads =>
    if ads.isEmpty then
      { page_ads := [], should_stop := true, seen := seen, stats := stats, trace := [] }
    else
      processAds cfg ads seen 0 stats []

/-! ### The crawl loop (ScraperEngine.scrape_from_url, src/main.py 952-1007) -/

/-- The run state of `scrape_from_url`: output accumulator, batch buffer,
seen-id set, stats, plus (ghost) the pushed batches, the pages requested and
the listings examined. -/
structure RunSt where
  all_ads : List AdData := []
  batch_ads : List AdData := []
  seen : List AttrVal := []
  stats : Stats := {}
  pushed : List (List AdData) := []
  fetched : List Int := []
  processed : List Ad := []
deriving Repr

/-- `max_pages = config.max_pages if config.max_pages > 0 else 100`
(src/main.py line 956). -/
def maxPages (cfg : Config) : Int :=
  if cfg.max_pages > 0 then cfg.max_pages else 100

/-- `batch_size = 10` (src/main.py line 968). -/
def batchSize : Int := 10

/-- Flush the batch buffer to the sink (`await ApifyAdapter.push_data(batch_ads)`
guarded by `if batch_ads:`). -/
def flushBatch (st : RunSt) : RunSt :=
  if st.batch_ads.isEmpty then st
  else { st with pushed := st.pushed ++ [st.batch_ads], batch_ads := [] }

/-- The post-fetch tail of one `while` iteration of `scrape_from_url`
(src/main.py lines 977-991): absorb the page outcome `o` into the run state
(accumulate new records, bump the totals and the page count when the page
yielded records), then flush the batch buffer when it is full or the loop is
stopping. -/
def afterPage (cfg : Config) (st : RunSt) (o : PageOut) : RunSt :=
  let st1 := { st with seen := o.seen, stats := o.stats,
                       processed := st.processed ++ o.trace }
  let st2 :=
    if o.page_ads.isEmpty then st1
    else
      { st1 with
        all_ads := st1.all_ads ++ o.page_ads,
        batch_ads := st1.batch_ads ++ o.page_ads,
        stats := { st1.stats with
          total_ads := st1.stats.total_ads + o.page_ads.length,
          unique_ads := st1.stats.unique_ads + o.page_ads.length,
          pages_processed := st1.stats.pages_processed + 1 } }
  if (st2.batch_ads.length : Int) ≥ batchSize * cfg.limit_per_page
      ∨ o.should_stop then
    flushBatch st2
  else st2

/-- One iteration of the `while page <= max_pages` loop of `scrape_from_url`
(src/main.py lines 973-1000), recursing on fuel; `pages` is the search client,
giving the fetch outcome for each page number. -/
def runLoop (cfg : Config) (pages : Int → FetchResult) :
    Nat → Int → RunSt → RunSt
  | 0, _, st => st
  | fuel + 1, page, st =>
    if page ≤ maxPages cfg then
      let st0 := { st with fetched := st.fetched ++ [page] }
      let o := scrapeSinglePage cfg st0.seen st0.stats (pages page)
      let st3 := afterPage cfg st0 o
      if o.should_stop ∨ o.page_ads.isEmpty ∨ page ≥ maxPages cfg then st3
      else runLoop cfg pages fuel (page + 1) st3
    else st

/-- `ScraperEngine.scrape_from_url` (src/main.py lines 952-1007): validate the
search arguments, drive the page loop from page 1, and push any remaining
batched records at the end. -/
def scrape_from_url (cfg : Config) (pages : Int → FetchResult) : RunSt :=
  if cfg.search_args.isEmpty then
    { stats := { errors := 1 } }
  else
    flushBatch (runLoop cfg pages ((maxPages cfg).toNat + 1) 1 {})

/-! ### Specification-level deduplication

Independent description of "keep the first listing per usable identifier,
count the rest", used to state the dedup claims against the engine. -/

/-- Result of the specification-level dedup pass. -/
structure DedupOut where
  kept : List Ad
  seen : List AttrVal
  dups : Nat
deriving DecidableEq, Repr

/-- `dedupSpec ads seen`: the first-occurrence listings of `ads` relative to
the already-seen identifiers `seen`, the seen-identifier list afterwards, and
the number of later (duplicate) occurrences. -/
def dedupSpec : List Ad → List AttrVal → DedupOut
  | [], seen => { kept := [], seen := seen, dups := 0 }
  | ad :: rest, seen =>
    match ad.usableId with
    | none => dedupSpec rest seen
    | some v =>
      if v ∈ seen then
        let r := dedupSpec rest seen
        { r with dups := r.dups + 1 }
      else
        let r := dedupSpec rest (v :: seen)
        { r with kept := ad :: r.kept }

/-! ### Derived test predicates (read off the engine's checks) -/

/-- Whether the query argument `arg` does not carry the key `k` (its key, when
it has one, differs from `k`). -/
def keyIsNot (k : String) (arg : String) : Bool :=
  match splitEq1 arg with
  | some kv => kv.1 != k
  | none => true

/-- Whether a listing trips the age gate of `_scrape_single_page`
(src/main.py lines 923-925): it has a truthy publication date whose age
strictly exceeds the threshold. -/
def isOldFor (cfg : Config) (a : Ad) : Bool :=
  match a.ageDays with
  | some g => g > cfg.max_age_days
  | none => false

/-- Whether a listing reaches the age gate as an old listing: it has a usable
identifier not yet seen, and it is old for the configuration. -/
def qualifiesOld (cfg : Config) (seen : List AttrVal) (a : Ad) : Bool :=
  (match a.usableId with
   | some v => decide (v ∉ seen)
   | none => false) && isOldFor cfg a

/-! ### Concrete runs used by counterexamples and witnesses -/

/-- A listing with integer id `i`, a publication date `age` days old, and a
title. -/
def adWith (i age : Int) (t : String) : Ad :=
  { id := some (.vint i), first_publication_date := some age,
    attrs := [("title", .vstr t)] }

/-- A listing without any identifier attribute. -/
def adNoId (t : String) : Ad := { attrs := [("title", .vstr t)] }

/-- Age filter set to 1 day. -/
def c1Cfg : Config :=
  { search_args := [("text", .sstr "velo")], max_pages := 10, max_age_days := 1 }

/-- First listing bearing id 1: ten days old. -/
def c1AdOld : Ad := adWith 1 10 "first occurrence"

/-- Second listing bearing id 1: fresh. -/
def c1AdNew : Ad := adWith 1 0 "second occurrence"

/-- Page 1 carries the old listing and then the fresh listing with the same
id; later pages are empty. -/
def c1Pages : Int → FetchResult :=
  fun p => if p = 1 then some [c1AdOld, c1AdNew] else some []

/-- Age filter set to 7 days, consecutive-old limit at its constant 5. -/
def c2Cfg : Config :=
  { search_args := [("text", .sstr "velo")], max_pages := 10, max_age_days := 7 }

/-- Five listings ten days old (ids 2-6) are consecutive in the processed
stream but split four/one across the page-1/page-2 boundary; a fresh listing
follows on page 2 and another on page 3. -/
def c2Pages : Int → FetchResult :=
  fun p =>
    if p = 1 then
      some [adWith 1 0 "f1", adWith 2 10 "o2", adWith 3 10 "o3",
            adWith 4 10 "o4", adWith 5 10 "o5"]
    else if p = 2 then some [adWith 6 10 "o6", adWith 7 0 "f7"]
    else if p = 3 then some [adWith 8 0 "f8"]
    else some []

/-- A small age-disabled configuration. -/
def wCfg : Config := { search_args := [("text", .sstr "velo")], max_pages := 3 }

/-- Three pages with one cross-page duplicate (id 2). -/
def wPages : Int → FetchResult :=
  fun p =>
    if p = 1 then some [adWith 1 0 "a", adWith 2 0 "b"]
    else if p = 2 then some [adWith 2 0 "b again", adWith 3 0 "c"]
    else some []

/-- Page 1 is non-empty but yields no new record (its only listing has no
identifier). -/
def w10Pages : Int → FetchResult :=
  fun p => if p = 1 then some [adNoId "ghost"] else some []

/-- The search client raises on every fetch. -/
def wErrPages : Int → FetchResult := fun _ => none

/-- A fresh leading listing, before the old streak, on page 1. -/
def wDLead : List Ad := [adWith 10 0 "lead"]

/-- Five listings ten days old with fresh distinct ids. -/
def wDBlock : List Ad :=
  [adWith 11 10 "o1", adWith 12 10 "o2", adWith 13 10 "o3",
   adWith 14 10 "o4", adWith 15 10 "o5"]

/-- A fresh trailing listing, after the old streak. -/
def wDRest : List Ad := [adWith 16 0 "after"]

/-- Page 1 carries a fresh listing, then five old listings, then another
fresh listing. -/
def wDPages : Int → FetchResult :=
  fun p => if p = 1 then some (wDLead ++ wDBlock ++ wDRest) else some []

/-- Query arguments surrounding the price parameter in the C3 witness. -/
def c3Left : List String := ["text=velo"]

/-- Trailing query arguments in the C3 witness. -/
def c3Right : List String := ["rooms=2-3"]

/-! ## Dictionary lemmas -/

theorem dget_dput_self {α : Type} (d : Dict α) (k : String) (v : α) :
    dget (dput d k v) k = some v := by
  induction d with
  | nil => simp [dput, dget]
  | cons p rest ih =>
    by_cases h : p.1 = k
    · simp [dput, h, dget]
    · simp [dput, h, dget, ih]

theorem dget_dput_ne {α : Type} (d : Dict α) (k k' : String) (v : α)
    (h : k ≠ k') : dget (dput d k v) k' = dget d k' := by
  induction d with
  | nil => simp [dput, dget, h]
  | cons p rest ih =>
    by_cases hp : p.1 = k
    · subst hp
      simp [dput, dget, h, Ne.symm h]
    · simp only [dput, if_neg hp]
      by_cases hq : p.1 = k'
      · simp [dget, hq]
      · simp [dget, hq, ih]

theorem dget_dsetdefault_ne {α : Type} (d : Dict α) (k k' : String) (v : α)
    (h : k ≠ k') : dget (dsetdefault d k v) k' = dget d k' := by
  induction d with
  | nil => simp [dsetdefault, dget, h]
  | cons p rest ih =>
    by_cases hp : p.1 = k
    · simp [dsetdefault, hp, dget]
    · simp only [dsetdefault, if_neg hp]
      by_cases hq : p.1 = k'
      · simp [dget, hq]
      · simp [dget, hq, ih]

theorem dget_isSome_dput {α : Type} (d : Dict α) (k k' : String) (v : α)
    (h : (dget d k').isSome) : (dget (dput d k v) k').isSome := by
  by_cases hk : k = k'
  · rw [hk, dget_dput_self]; rfl
  · rwa [dget_dput_ne d k k' v hk]

theorem dget_append_of_none {α : Type} (d e : Dict α) (k : String)
    (h : dget d k = none) : dget (d ++ e) k = dget e k := by
  induction d with
  | nil => rfl
  | cons p rest ih =>
    by_cases hp : p.1 = k
    · simp [dget, hp] at h
    · simp only [dget, if_neg hp, List.cons_append] at h ⊢
      exact ih h

theorem dget_ne_nil_of_some {α : Type} (d : Dict α) (k : String) (v : α)
    (h : dget d k = some v) : d ≠ [] := by
  intro hd
  rw [hd] at h
  simp [dget] at h

theorem mem_keys_dput {α : Type} (d : Dict α) (k x : String) (v : α) :
    x ∈ (dput d k v).map Prod.fst ↔ x = k ∨ x ∈ d.map Prod.fst := by
  induction d with
  | nil => simp [dput]
  | cons p rest ih =>
    by_cases hp : p.1 = k
    · rw [show dput (p :: rest) k v = (k, v) :: rest from by simp [dput, hp]]
      subst hp
      simp only [List.map_cons, List.mem_cons]
      tauto
    · rw [show dput (p :: rest) k v = p :: dput rest k v from by simp [dput, hp]]
      simp only [List.map_cons, List.mem_cons, ih]
      tauto

theorem dput_keys_nodup {α : Type} (d : Dict α) (k : String) (v : α)
    (h : (d.map Prod.fst).Nodup) : ((dput d k v).map Prod.fst).Nodup := by
  induction d with
  | nil => simp [dput]
  | cons p rest ih =>
    by_cases hp : p.1 = k
    · subst hp
      simpa [dput] using h
    · simp only [dput, if_neg hp, List.map_cons, List.nodup_cons] at h ⊢
      refine ⟨fun hmem => ?_, ih h.2⟩
      rcases (mem_keys_dput rest k p.1 v).mp hmem with h1 | h1
      · exact hp h1
      · exact h.1 h1

theorem dget_dupdate_not_mem {α : Type} (e : Dict α) (k : String)
    (h : ∀ p ∈ e, p.1 ≠ k) : ∀ d : Dict α, dget (dupdate d e) k = dget d k := by
  induction e with
  | nil => intro d; rfl
  | cons q e ih =>
    intro d
    have hstep : dupdate d (q :: e) = dupdate (dput d q.1 q.2) e := rfl
    rw [hstep, ih (fun p hp => h p (List.mem_cons_of_mem q hp)) (dput d q.1 q.2)]
    exact dget_dput_ne d q.1 k q.2 (h q (List.mem_cons_self q e))

theorem dget_dupdate_of_some {α : Type} (e : Dict α) (k : String) (v : α) :
    (e.map Prod.fst).Nodup → dget e k = some v →
    ∀ d : Dict α, dget (dupdate d e) k = some v := by
  induction e with
  | nil => intro _ h; simp [dget] at h
  | cons q e ih =>
    intro hnd h d
    have hstep : dupdate d (q :: e) = dupdate (dput d q.1 q.2) e := rfl
    simp only [List.map_cons, List.nodup_cons] at hnd
    by_cases hq : q.1 = k
    · simp only [dget, if_pos hq] at h
      rw [hstep, dget_dupdate_not_mem e k ?keys (dput d q.1 q.2)]
      · rw [hq, dget_dput_self, h]
      case keys =>
        intro p hp hpk
        apply hnd.1
        rw [hq, ← hpk]
        exact List.mem_map_of_mem Prod.fst hp
    · simp only [dget, if_neg hq] at h
      rw [hstep]
      exact ih hnd.2 h (dput d q.1 q.2)

/-! ## Claim C5: the consecutive-old limit is not configurable -/

/-- Claim C5 as stated is false: an input that supplies
`consecutive_old_limit = 7` still yields an engine limit of 5, because
`Config.__init__` assigns the constant 5 and never reads that input key. -/
theorem C5_counterexample :
    ¬ ∀ (i : InputData) (v : Int),
        i.consecutive_old_limit = some v →
        (Config.ofInput i).consecutive_old_limit = v := by
  intro h
  exact absurd (h { consecutive_old_limit := some 7 } 7 rfl) (by decide)

/-- Claim C5 amended: the consecutive-old stop limit of a built configuration
is the constant 5, whatever the input mapping supplies. -/
theorem C5_theorem (i : InputData) :
    (Config.ofInput i).consecutive_old_limit = 5 := rfl

/-! ## Claim C4: sort and order coupling -/

/-- Claim C4 evaluated on the code: `sort=time&order=desc` does yield the
newest-first value and an absent sort defaults to newest-first, but
`sort=price&order=asc` yields `Sort.EXPENSIVE` (most-expensive-first): the
parser maps `price` to `CHEAPEST` and then the `asc` order flips `CHEAPEST` to
`EXPENSIVE` (src/url_parsing.py lines 100-102), contradicting the claimed
cheapest-first coupling. -/
theorem C4_code_eval :
    dget (parse_url_to_search_config
        "https://www.leboncoin.fr/recherche?sort=price&order=asc") "sort"
      = some (.ssort .EXPENSIVE) ∧
    LbcSort.EXPENSIVE ≠ LbcSort.CHEAPEST ∧
    dget (parse_url_to_search_config
        "https://www.leboncoin.fr/recherche?sort=time&order=desc") "sort"
      = some (.ssort .NEWEST) ∧
    dget (parse_url_to_search_config
        "https://www.leboncoin.fr/recherche?text=velo") "sort"
      = some (.ssort .NEWEST) := by
  refine ⟨?_, by decide, ?_, ?_⟩ <;> rfl

/-! ## Engine frame lemmas -/

theorem flushBatch_stats (st : RunSt) : (flushBatch st).stats = st.stats := by
  unfold flushBatch; split <;> rfl

theorem flushBatch_all_ads (st : RunSt) : (flushBatch st).all_ads = st.all_ads := by
  unfold flushBatch; split <;> rfl

theorem flushBatch_fetched (st : RunSt) : (flushBatch st).fetched = st.fetched := by
  unfold flushBatch; split <;> rfl

theorem flushBatch_processed (st : RunSt) : (flushBatch st).processed = st.processed := by
  unfold flushBatch; split <;> rfl

theorem flushBatch_seen (st : RunSt) : (flushBatch st).seen = st.seen := by
  unfold flushBatch; split <;> rfl

theorem flushBatch_flatten (st : RunSt) :
    (flushBatch st).pushed.flatten ++ (flushBatch st).batch_ads
      = st.pushed.flatten ++ st.batch_ads := by
  unfold flushBatch
  split
  · rfl
  · simp

theorem afterPage_stats (cfg : Config) (st : RunSt) (o : PageOut) :
    (afterPage cfg st o).stats =
      if o.page_ads.isEmpty then o.stats
      else { o.stats with
             total_ads := o.stats.total_ads + o.page_ads.length,
             unique_ads := o.stats.unique_ads + o.page_ads.length,
             pages_processed := o.stats.pages_processed + 1 } := by
  unfold afterPage
  by_cases he : o.page_ads.isEmpty <;>
    simp only [he, if_pos, if_neg, Bool.false_eq_true, ite_true, ite_false] <;>
    split <;> simp [flushBatch_stats]

theorem afterPage_fetched (cfg : Config) (st : RunSt) (o : PageOut) :
    (afterPage cfg st o).fetched = st.fetched := by
  unfold afterPage
  by_cases he : o.page_ads.isEmpty <;>
    simp only [he, ite_true, ite_false, Bool.false_eq_true] <;>
    split <;> simp [flushBatch_fetched]

theorem afterPage_seen (cfg : Config) (st : RunSt) (o : PageOut) :
    (afterPage cfg st o).seen = o.seen := by
  unfold afterPage
  by_cases he : o.page_ads.isEmpty <;>
    simp only [he, ite_true, ite_false, Bool.false_eq_true] <;>
    split <;> simp [flushBatch_seen]

theorem afterPage_processed (cfg : Config) (st : RunSt) (o : PageOut) :
    (afterPage cfg st o).processed = st.processed ++ o.trace := by
  unfold afterPage
  by_cases he : o.page_ads.isEmpty <;>
    simp only [he, ite_true, ite_false, Bool.false_eq_true] <;>
    split <;> simp [flushBatch_processed]

theorem afterPage_all_ads (cfg : Config) (st : RunSt) (o : PageOut) :
    (afterPage cfg st o).all_ads = st.all_ads ++ o.page_ads := by
  unfold afterPage
  by_cases he : o.page_ads.isEmpty
  · have : o.page_ads = [] := by simpa using he
    simp only [he, ite_true] <;> split <;> simp [flushBatch_all_ads, this]
  · simp only [he, Bool.false_eq_true, ite_false]
    split <;> simp [flushBatch_all_ads]

theorem afterPage_flatten (cfg : Config) (st : RunSt) (o : PageOut) :
    (afterPage cfg st o).pushed.flatten ++ (afterPage cfg st o).batch_ads
      = st.pushed.flatten ++ st.batch_ads ++ o.page_ads := by
  unfold afterPage
  by_cases he : o.page_ads.isEmpty
  · have hnil : o.page_ads = [] := by simpa using he
    simp only [he, ite_true]
    split
    · simp [flushBatch_flatten, hnil]
    · simp [hnil]
  · simp only [he, Bool.false_eq_true, ite_false]
    split
    · simp [flushBatch_flatten]
    · simp

theorem processAds_stats_shape (cfg : Config) (ads : List Ad) :
    ∀ (seen : List AttrVal) (oc : Nat) (stats : Stats) (acc : List AdData),
      ∃ d : Nat, (processAds cfg ads seen oc stats acc).stats
        = { stats with duplicates := d } := by
  induction ads with
  | nil =>
    intro seen oc stats acc
    exact ⟨stats.duplicates, rfl⟩
  | cons ad rest ih =>
    intro seen oc stats acc
    simp only [processAds]
    cases had : ad.usableId with
    | none => simpa [PageOut.consTrace] using ih seen oc stats acc
    | some v =>
      by_cases hseen : v ∈ seen
      · simp only [if_pos hseen]
        obtain ⟨d, hd⟩ :=
          ih seen oc { stats with duplicates := stats.duplicates + 1 } acc
        exact ⟨d, by simp [PageOut.consTrace, hd]⟩
      · simp only [if_neg hseen]
        by_cases hage : cfg.max_age_days > 0
        · simp only [if_pos hage]
          cases hdte : ad.ageDays with
          | none =>
            simpa [PageOut.consTrace] using
              ih (v :: seen) 0 stats (acc ++ [normalizeAd ad])
          | some age =>
            by_cases hold : age > cfg.max_age_days
            · simp only [if_pos hold]
              by_cases hlim : oc + 1 ≥ cfg.consecutive_old_limit.toNat
              · simp only [if_pos hlim]
                exact ⟨stats.duplicates, rfl⟩
              · simp only [if_neg hlim]
                simpa [PageOut.consTrace] using ih seen (oc + 1) stats acc
            · simp only [if_neg hold]
              simpa [PageOut.consTrace] using
                ih (v :: seen) 0 stats (acc ++ [normalizeAd ad])
        · simp only [if_neg hage]
          simpa [PageOut.consTrace] using
            ih (v :: seen) oc stats (acc ++ [normalizeAd ad])

theorem scrapeSinglePage_stats_shape (cfg : Config) (seen : List AttrVal)
    (stats : Stats) (fr : FetchResult) :
    ∃ d e : Nat, (scrapeSinglePage cfg seen stats fr).stats
      = { stats with duplicates := d, errors := e } := by
  cases fr with
  | none => exact ⟨stats.duplicates, stats.errors + 1, rfl⟩
  | some ads =>
    by_cases he : ads.isEmpty
    · exact ⟨stats.duplicates, stats.errors, by simp [scrapeSinglePage, he]⟩
    · obtain ⟨d, hd⟩ := processAds_stats_shape cfg ads seen 0 stats []
      exact ⟨d, stats.errors, by simp [scrapeSinglePage, he, hd]⟩

theorem runLoop_one (cfg : Config) (pages : Int → FetchResult) (fuel : Nat)
    (page : Int) (st : RunSt) (hp : page ≤ maxPages cfg) :
    runLoop cfg pages (fuel + 1) page st =
      (if (scrapeSinglePage cfg st.seen st.stats (pages page)).should_stop
          ∨ (scrapeSinglePage cfg st.seen st.stats (pages page)).page_ads.isEmpty
          ∨ page ≥ maxPages cfg then
        afterPage cfg { st with fetched := st.fetched ++ [page] }
          (scrapeSinglePage cfg st.seen st.stats (pages page))
      else
        runLoop cfg pages fuel (page + 1)
          (afterPage cfg { st with fetched := st.fetched ++ [page] }
            (scrapeSinglePage cfg st.seen st.stats (pages page)))) := by
  simp only [runLoop, if_pos hp]

/-! ## Claim C9: total equals unique after every page -/

theorem runLoop_total_unique_inv (cfg : Config) (pages : Int → FetchResult) :
    ∀ (fuel : Nat) (page : Int) (st : RunSt),
      st.stats.total_ads = st.stats.unique_ads →
      (runLoop cfg pages fuel page st).stats.total_ads
        = (runLoop cfg pages fuel page st).stats.unique_ads := by
  intro fuel
  induction fuel with
  | zero => intro page st h; simpa [runLoop] using h
  | succ fuel ih =>
    intro page st h
    by_cases hp : page ≤ maxPages cfg
    · rw [runLoop_one cfg pages fuel page st hp]
      obtain ⟨d, e, hde⟩ :=
        scrapeSinglePage_stats_shape cfg st.seen st.stats (pages page)
      have h3 : ∀ st' : RunSt,
          (afterPage cfg st' (scrapeSinglePage cfg st.seen st.stats (pages page))).stats.total_ads
            = (afterPage cfg st' (scrapeSinglePage cfg st.seen st.stats (pages page))).stats.unique_ads := by
        intro st'
        rw [afterPage_stats]
        split <;> simp [hde, h]
      split
      · exact h3 _
      · exact ih (page + 1) _ (h3 _)
    · simpa [runLoop, hp] using h

/-- Claim C9: the engine increments `total_ads` and `unique_ads` by the same
amount (the count of newly accepted records) after every processed page, so
from any state where the two counters agree they agree after any number of
loop iterations, and at the end of every full run. -/
theorem C9_theorem :
    (∀ (cfg : Config) (pages : Int → FetchResult) (fuel : Nat) (page : Int)
        (st : RunSt),
      st.stats.total_ads = st.stats.unique_ads →
      (runLoop cfg pages fuel page st).stats.total_ads
        = (runLoop cfg pages fuel page st).stats.unique_ads) ∧
    (∀ (cfg : Config) (pages : Int → FetchResult),
      (scrape_from_url cfg pages).stats.total_ads
        = (scrape_from_url cfg pages).stats.unique_ads) := by
  constructor
  · exact fun cfg pages => runLoop_total_unique_inv cfg pages
  · intro cfg pages
    unfold scrape_from_url
    split
    · rfl
    · rw [show (flushBatch (runLoop cfg pages ((maxPages cfg).toNat + 1) 1 {})).stats
            = (runLoop cfg pages ((maxPages cfg).toNat + 1) 1 {}).stats
          from flushBatch_stats _]
      exact runLoop_total_unique_inv cfg pages _ 1 {} rfl

/-- Witness for C9 on a concrete three-page run with one duplicate. -/
theorem C9_witness :
    (runLoop wCfg wPages 4 1 {}).stats.total_ads
      = (runLoop wCfg wPages 4 1 {}).stats.unique_ads :=
  C9_theorem.1 wCfg wPages 4 1 {} rfl

/-! ## Claim C10: a page with no new records stops the crawl, uncounted -/

/-- Claim C10: when a fetched page has listings but none of them yields a new
record, the loop stops after that page (the page just fetched is the last one
requested) and `pages_processed` is not incremented — the stop test is "zero
new records", not "zero listings". -/
theorem C10_theorem (cfg : Config) (pages : Int → FetchResult) (fuel : Nat)
    (page : Int) (st : RunSt) (ads : List Ad)
    (hp : page ≤ maxPages cfg) (hpg : pages page = some ads) (hne : ads ≠ [])
    (hnone : (processAds cfg ads st.seen 0 st.stats []).page_ads = []) :
    (runLoop cfg pages (fuel + 1) page st).fetched = st.fetched ++ [page] ∧
    (runLoop cfg pages (fuel + 1) page st).stats.pages_processed
      = st.stats.pages_processed := by
  have hie : ads.isEmpty = false := by
    cases ads with
    | nil => exact absurd rfl hne
    | cons a l => rfl
  have hsp : scrapeSinglePage cfg st.seen st.stats (pages page)
      = processAds cfg ads st.seen 0 st.stats [] := by
    rw [hpg]; simp [scrapeSinglePage, hie]
  rw [runLoop_one cfg pages fuel page st hp, hsp]
  rw [if_pos (Or.inr (Or.inl (by simp [hnone])))]
  constructor
  · rw [afterPage_fetched]
  · rw [afterPage_stats]
    obtain ⟨d, hd⟩ := processAds_stats_shape cfg ads st.seen 0 st.stats []
    simp [hnone, hd]

/-- Witness for C10: a page whose single listing lacks an identifier. -/
theorem C10_witness :
    w10Pages 1 = some [adNoId "ghost"] ∧
    ((runLoop wCfg w10Pages 4 1 {}).fetched = ({} : RunSt).fetched ++ [1] ∧
     (runLoop wCfg w10Pages 4 1 {}).stats.pages_processed
       = ({} : RunSt).stats.pages_processed) :=
  ⟨rfl, C10_theorem wCfg w10Pages 3 1 {} [adNoId "ghost"]
    (by decide) rfl (by decide) (by decide)⟩

/-! ## Claim C7: a raised fetch error is contained -/

/-- Claim C7: when the search client raises on a page fetch, the loop counts
exactly one error, stops fetching (the failing page is the last one
requested), flushes the batch buffer, keeps every previously collected
record, and returns normally. -/
theorem C7_theorem (cfg : Config) (pages : Int → FetchResult) (fuel : Nat)
    (page : Int) (st : RunSt)
    (hp : page ≤ maxPages cfg) (hpg : pages page = none) :
    (runLoop cfg pages (fuel + 1) page st).stats.errors = st.stats.errors + 1 ∧
    (runLoop cfg pages (fuel + 1) page st).all_ads = st.all_ads ∧
    (runLoop cfg pages (fuel + 1) page st).fetched = st.fetched ++ [page] ∧
    (runLoop cfg pages (fuel + 1) page st).pushed
      = st.pushed ++ (if st.batch_ads.isEmpty then [] else [st.batch_ads]) ∧
    (runLoop cfg pages (fuel + 1) page st).batch_ads = [] := by
  rw [runLoop_one cfg pages fuel page st hp, hpg]
  simp only [scrapeSinglePage]
  rw [if_pos (Or.inl trivial)]
  unfold afterPage flushBatch
  by_cases hb : st.batch_ads.isEmpty
  · have hnil : st.batch_ads = [] := by simpa using hb
    simp [hb, hnil]
  · simp [hb]

/-- Witness for C7: the client raises on page 2 after one successful page. -/
theorem C7_witness :
    wErrPages 1 = none ∧
    ((runLoop wCfg wErrPages 1 1 {}).stats.errors = ({} : RunSt).stats.errors + 1 ∧
     (runLoop wCfg wErrPages 1 1 {}).all_ads = ({} : RunSt).all_ads ∧
     (runLoop wCfg wErrPages 1 1 {}).fetched = ({} : RunSt).fetched ++ [1] ∧
     (runLoop wCfg wErrPages 1 1 {}).pushed
       = ({} : RunSt).pushed
         ++ (if ({} : RunSt).batch_ads.isEmpty then [] else [({} : RunSt).batch_ads]) ∧
     (runLoop wCfg wErrPages 1 1 {}).batch_ads = []) :=
  ⟨rfl, C7_theorem wCfg wErrPages 0 1 {} (by decide) rfl⟩

/-! ## Claim C8: every accumulated record reaches the sink -/

theorem runLoop_push_inv (cfg : Config) (pages : Int → FetchResult) :
    ∀ (fuel : Nat) (page : Int) (st : RunSt),
      st.pushed.flatten ++ st.batch_ads = st.all_ads →
      (runLoop cfg pages fuel page st).pushed.flatten
          ++ (runLoop cfg pages fuel page st).batch_ads
        = (runLoop cfg pages fuel page st).all_ads := by
  intro fuel
  induction fuel with
  | zero => intro page st h; simpa [runLoop] using h
  | succ fuel ih =>
    intro page st h
    by_cases hp : page ≤ maxPages cfg
    · rw [runLoop_one cfg pages fuel page st hp]
      have h3 : ∀ o : PageOut,
          (afterPage cfg { st with fetched := st.fetched ++ [page] } o).pushed.flatten
              ++ (afterPage cfg { st with fetched := st.fetched ++ [page] } o).batch_ads
            = (afterPage cfg { st with fetched := st.fetched ++ [page] } o).all_ads := by
        intro o
        rw [afterPage_flatten, afterPage_all_ads]
        show st.pushed.flatten ++ st.batch_ads ++ o.page_ads = st.all_ads ++ o.page_ads
        rw [h]
      split
      · exact h3 _
      · exact ih (page + 1) _ (h3 _)
    · simpa [runLoop, hp] using h

/-- Claim C8: at run end the concatenation of all batches handed to the sink
adapter equals the run's output record sequence in order, and the batch buffer
is empty — no accumulated record is lost, whatever stops the run. -/
theorem C8_theorem (cfg : Config) (pages : Int → FetchResult) :
    (scrape_from_url cfg pages).pushed.flatten
      = (scrape_from_url cfg pages).all_ads ∧
    (scrape_from_url cfg pages).batch_ads = [] := by
  unfold scrape_from_url
  split
  · exact ⟨rfl, rfl⟩
  · have h := runLoop_push_inv cfg pages ((maxPages cfg).toNat + 1) 1 {} rfl
    generalize hr : runLoop cfg pages ((maxPages cfg).toNat + 1) 1 {} = r at h
    unfold flushBatch
    by_cases hb : r.batch_ads.isEmpty
    · have hnil : r.batch_ads = [] := by simpa using hb
      rw [hnil] at h
      simp only [hb, ite_true]
      exact ⟨by simpa using h, hnil⟩
    · simp only [hb, Bool.false_eq_true, ite_false]
      constructor
      · simpa using h
      · trivial

/-! ## Claim C1: first-occurrence retention and duplicate counting -/

theorem processAds_age_disabled (cfg : Config) (h : cfg.max_age_days ≤ 0)
    (ads : List Ad) :
    ∀ (seen : List AttrVal) (oc : Nat) (stats : Stats) (acc : List AdData),
      processAds cfg ads seen oc stats acc =
        { page_ads := acc ++ (dedupSpec ads seen).kept.map normalizeAd,
          should_stop := false,
          seen := (dedupSpec ads seen).seen,
          stats := { stats with
            duplicates := stats.duplicates + (dedupSpec ads seen).dups },
          trace := ads, oldCount := oc } := by
  have hage : ¬ cfg.max_age_days > 0 := by omega
  induction ads with
  | nil =>
    intro seen oc stats acc
    simp [processAds, dedupSpec]
  | cons ad rest ih =>
    intro seen oc stats acc
    simp only [processAds, dedupSpec]
    cases had : ad.usableId with
    | none =>
      rw [ih seen oc stats acc]
      simp [PageOut.consTrace]
    | some v =>
      by_cases hseen : v ∈ seen
      · simp only [if_pos hseen]
        rw [ih seen oc { stats with duplicates := stats.duplicates + 1 } acc]
        simp [PageOut.consTrace, Nat.add_comm, Nat.add_assoc, Nat.add_left_comm]
      · simp only [if_neg hseen, if_neg hage]
        rw [ih (v :: seen) oc stats (acc ++ [normalizeAd ad])]
        simp [PageOut.consTrace, List.append_assoc]

theorem dedupSpec_cons_none (a : Ad) (l : List Ad) (seen : List AttrVal)
    (ha : a.usableId = none) : dedupSpec (a :: l) seen = dedupSpec l seen := by
  simp [dedupSpec, ha]

theorem dedupSpec_cons_dup (a : Ad) (l : List Ad) (seen : List AttrVal)
    (v : AttrVal) (ha : a.usableId = some v) (hs : v ∈ seen) :
    dedupSpec (a :: l) seen =
      { dedupSpec l seen with dups := (dedupSpec l seen).dups + 1 } := by
  simp [dedupSpec, ha, hs]

theorem dedupSpec_cons_new (a : Ad) (l : List Ad) (seen : List AttrVal)
    (v : AttrVal) (ha : a.usableId = some v) (hs : v ∉ seen) :
    dedupSpec (a :: l) seen =
      { dedupSpec l (v :: seen) with
        kept := a :: (dedupSpec l (v :: seen)).kept } := by
  simp [dedupSpec, ha, hs]

theorem dedupSpec_append (xs ys : List Ad) :
    ∀ seen : List AttrVal,
      dedupSpec (xs ++ ys) seen =
        { kept := (dedupSpec xs seen).kept
                    ++ (dedupSpec ys (dedupSpec xs seen).seen).kept,
          seen := (dedupSpec ys (dedupSpec xs seen).seen).seen,
          dups := (dedupSpec xs seen).dups
                    + (dedupSpec ys (dedupSpec xs seen).seen).dups } := by
  induction xs with
  | nil => intro seen; simp [dedupSpec]
  | cons a xs ih =>
    intro seen
    cases ha : a.usableId with
    | none =>
      rw [List.cons_append, dedupSpec_cons_none a (xs ++ ys) seen ha,
        dedupSpec_cons_none a xs seen ha, ih]
    | some v =>
      by_cases hs : v ∈ seen
      · rw [List.cons_append, dedupSpec_cons_dup a (xs ++ ys) seen v ha hs,
          dedupSpec_cons_dup a xs seen v ha hs, ih]
        simp [Nat.add_comm, Nat.add_assoc, Nat.add_left_comm]
      · rw [List.cons_append, dedupSpec_cons_new a (xs ++ ys) seen v ha hs,
          dedupSpec_cons_new a xs seen v ha hs, ih]
        simp

theorem runLoop_dedup_inv (cfg : Config) (pages : Int → FetchResult)
    (h : cfg.max_age_days ≤ 0) :
    ∀ (fuel : Nat) (page : Int) (st : RunSt),
      st.all_ads = (dedupSpec st.processed []).kept.map normalizeAd →
      st.seen = (dedupSpec st.processed []).seen →
      st.stats.duplicates = (dedupSpec st.processed []).dups →
      (runLoop cfg pages fuel page st).all_ads
          = (dedupSpec (runLoop cfg pages fuel page st).processed []).kept.map
              normalizeAd ∧
      (runLoop cfg pages fuel page st).seen
          = (dedupSpec (runLoop cfg pages fuel page st).processed []).seen ∧
      (runLoop cfg pages fuel page st).stats.duplicates
          = (dedupSpec (runLoop cfg pages fuel page st).processed []).dups := by
  intro fuel
  induction fuel with
  | zero =>
    intro page st h1 h2 h3
    simpa [runLoop] using ⟨h1, h2, h3⟩
  | succ fuel ih =>
    intro page st h1 h2 h3
    by_cases hp : page ≤ maxPages cfg
    · rw [runLoop_one cfg pages fuel page st hp]
      have hstep : ∀ o : PageOut,
          o = scrapeSinglePage cfg st.seen st.stats (pages page) →
          (afterPage cfg { st with fetched := st.fetched ++ [page] } o).all_ads
              = (dedupSpec (afterPage cfg { st with fetched := st.fetched ++ [page] } o).processed []).kept.map normalizeAd ∧
          (afterPage cfg { st with fetched := st.fetched ++ [page] } o).seen
              = (dedupSpec (afterPage cfg { st with fetched := st.fetched ++ [page] } o).processed []).seen ∧
          (afterPage cfg { st with fetched := st.fetched ++ [page] } o).stats.duplicates
              = (dedupSpec (afterPage cfg { st with fetched := st.fetched ++ [page] } o).processed []).dups := by
        intro o ho
        rw [afterPage_all_ads, afterPage_seen, afterPage_stats, afterPage_processed]
        cases hpg : pages page with
        | none =>
          rw [hpg] at ho
          simp only [scrapeSinglePage] at ho
          subst ho
          simp only []
          refine ⟨?_, ?_, ?_⟩ <;> simp [h1, h2, h3]
        | some ads =>
          rw [hpg] at ho
          by_cases hempty : ads.isEmpty
          · simp only [scrapeSinglePage, hempty, ite_true] at ho
            subst ho
            refine ⟨?_, ?_, ?_⟩ <;> simp [h1, h2, h3]
          · simp only [scrapeSinglePage, hempty, Bool.false_eq_true, ite_false] at ho
            rw [processAds_age_disabled cfg h ads st.seen 0 st.stats []] at ho
            subst ho
            rw [dedupSpec_append st.processed ads []]
            rw [← h2]
            refine ⟨?_, ?_, ?_⟩
            · simp [h1]
            · simp
            · simp [h3]
              split <;> rfl
      split
      · exact hstep _ rfl
      · obtain ⟨g1, g2, g3⟩ := hstep _ rfl
        exact ih (page + 1) _ g1 g2 g3
    · simpa [runLoop, hp] using ⟨h1, h2, h3⟩

/-- Claim C1, amended to account for the age gate: with the age filter
disabled, a run's output is exactly the normalization of the first processed
listing bearing each usable identifier, in processing order across all pages;
the engine's seen-id set always equals the seen set of the specification-level
dedup of the whole processed stream (so it is never reset between pages); and
`stats.duplicates` counts exactly one for every later processed listing whose
identifier had already been seen. -/
theorem C1_theorem (cfg : Config) (pages : Int → FetchResult)
    (h : cfg.max_age_days ≤ 0) :
    (scrape_from_url cfg pages).all_ads
        = (dedupSpec (scrape_from_url cfg pages).processed []).kept.map
            normalizeAd ∧
    (scrape_from_url cfg pages).seen
        = (dedupSpec (scrape_from_url cfg pages).processed []).seen ∧
    (scrape_from_url cfg pages).stats.duplicates
        = (dedupSpec (scrape_from_url cfg pages).processed []).dups := by
  unfold scrape_from_url
  split
  · exact ⟨rfl, rfl, rfl⟩
  · rw [show ∀ st : RunSt, (flushBatch st).all_ads = st.all_ads from flushBatch_all_ads]
    rw [show ∀ st : RunSt, (flushBatch st).seen = st.seen from flushBatch_seen]
    rw [show ∀ st : RunSt, (flushBatch st).processed = st.processed from flushBatch_processed]
    rw [show ∀ st : RunSt, (flushBatch st).stats = st.stats from flushBatch_stats]
    exact runLoop_dedup_inv cfg pages h ((maxPages cfg).toNat + 1) 1 {} rfl rfl rfl

/-- Witness for C1 on a concrete age-disabled run with one duplicate. -/
theorem C1_witness :
    wCfg.max_age_days ≤ 0 ∧
    ((scrape_from_url wCfg wPages).all_ads
        = (dedupSpec (scrape_from_url wCfg wPages).processed []).kept.map
            normalizeAd ∧
     (scrape_from_url wCfg wPages).seen
        = (dedupSpec (scrape_from_url wCfg wPages).processed []).seen ∧
     (scrape_from_url wCfg wPages).stats.duplicates
        = (dedupSpec (scrape_from_url wCfg wPages).processed []).dups) :=
  ⟨by decide, C1_theorem wCfg wPages (by decide)⟩

/-- Claim C1 as stated is false when the age filter is active: on this run the
two processed listings share the identifier 1, yet the output retains the
normalization of the second listing (the first was skipped by the age gate and
never marked seen) and `stats.duplicates` stays 0 instead of being
incremented for the later occurrence. -/
theorem C1_counterexample :
    (scrape_from_url c1Cfg c1Pages).processed = [c1AdOld, c1AdNew] ∧
    c1AdOld.usableId = some (.vint 1) ∧
    c1AdNew.usableId = some (.vint 1) ∧
    (scrape_from_url c1Cfg c1Pages).all_ads = [normalizeAd c1AdNew] ∧
    normalizeAd c1AdNew ≠ normalizeAd c1AdOld ∧
    (scrape_from_url c1Cfg c1Pages).stats.duplicates = 0 := by
  decide

/-! ## Claim C2: consecutive-old early stop -/

theorem processAds_old_block (cfg : Config) (hage : cfg.max_age_days > 0) :
    ∀ (block rest : List Ad) (seen : List AttrVal) (oc : Nat) (stats : Stats)
      (acc : List AdData),
      block ≠ [] →
      oc + block.length = cfg.consecutive_old_limit.toNat →
      (∀ a ∈ block, qualifiesOld cfg seen a = true) →
      processAds cfg (block ++ rest) seen oc stats acc =
        { page_ads := acc, should_stop := true, seen := seen, stats := stats,
          trace := block, oldCount := cfg.consecutive_old_limit.toNat } := by
  intro block
  induction block with
  | nil => intro rest seen oc stats acc hne; exact absurd rfl hne
  | cons a bs ih =>
    intro rest seen oc stats acc _ hlen hall
    have hqa := hall a (List.mem_cons_self a bs)
    unfold qualifiesOld at hqa
    cases ha : a.usableId with
    | none => rw [ha] at hqa; simp at hqa
    | some v =>
      rw [ha] at hqa
      simp only [Bool.and_eq_true, decide_eq_true_eq] at hqa
      obtain ⟨hnotseen, hold⟩ := hqa
      unfold isOldFor at hold
      cases hd : a.ageDays with
      | none => rw [hd] at hold; simp at hold
      | some g =>
        rw [hd] at hold
        simp only [decide_eq_true_eq] at hold
        rw [List.cons_append]
        simp only [processAds, ha, hd]
        rw [if_neg hnotseen, if_pos hage, if_pos hold]
        cases bs with
        | nil =>
          have hge : oc + 1 ≥ cfg.consecutive_old_limit.toNat := by
            simp only [List.length_cons, List.length_nil] at hlen
            omega
          have h1 : oc + 1 = cfg.consecutive_old_limit.toNat := by
            simp only [List.length_cons, List.length_nil] at hlen
            omega
          rw [if_pos hge, h1]
        | cons b bs2 =>
          have hlt : ¬ oc + 1 ≥ cfg.consecutive_old_limit.toNat := by
            simp only [List.length_cons] at hlen
            omega
          rw [if_neg hlt]
          rw [ih rest seen (oc + 1) stats acc (by simp)
            (by simp only [List.length_cons] at hlen ⊢; omega)
            (fun x hx => hall x (List.mem_cons_of_mem a hx))]
          simp [PageOut.consTrace]

theorem processAds_cons_noId (cfg : Config) (a : Ad) (rest : List Ad)
    (seen : List AttrVal) (oc : Nat) (stats : Stats) (acc : List AdData)
    (ha : a.usableId = none) :
    processAds cfg (a :: rest) seen oc stats acc
      = (processAds cfg rest seen oc stats acc).consTrace a := by
  simp [processAds, ha]

theorem processAds_cons_dup (cfg : Config) (a : Ad) (rest : List Ad)
    (seen : List AttrVal) (oc : Nat) (stats : Stats) (acc : List AdData)
    (v : AttrVal) (ha : a.usableId = some v) (hs : v ∈ seen) :
    processAds cfg (a :: rest) seen oc stats acc
      = (processAds cfg rest seen oc
          { stats with duplicates := stats.duplicates + 1 } acc).consTrace a := by
  simp [processAds, ha, hs]

theorem processAds_cons_accept_noAge (cfg : Config) (a : Ad) (rest : List Ad)
    (seen : List AttrVal) (oc : Nat) (stats : Stats) (acc : List AdData)
    (v : AttrVal) (hage : ¬ cfg.max_age_days > 0) (ha : a.usableId = some v)
    (hs : v ∉ seen) :
    processAds cfg (a :: rest) seen oc stats acc
      = (processAds cfg rest (v :: seen) oc stats
          (acc ++ [normalizeAd a])).consTrace a := by
  simp [processAds, ha, hs, hage]

theorem processAds_cons_old_go (cfg : Config) (a : Ad) (rest : List Ad)
    (seen : List AttrVal) (oc : Nat) (stats : Stats) (acc : List AdData)
    (v : AttrVal) (g : Int) (hage : cfg.max_age_days > 0)
    (ha : a.usableId = some v) (hs : v ∉ seen) (hd : a.ageDays = some g)
    (hold : g > cfg.max_age_days)
    (hlim : ¬ oc + 1 ≥ cfg.consecutive_old_limit.toNat) :
    processAds cfg (a :: rest) seen oc stats acc
      = (processAds cfg rest seen (oc + 1) stats acc).consTrace a := by
  simp [processAds, ha, hs, hage, hd, hold, hlim]

theorem processAds_cons_old_stop (cfg : Config) (a : Ad) (rest : List Ad)
    (seen : List AttrVal) (oc : Nat) (stats : Stats) (acc : List AdData)
    (v : AttrVal) (g : Int) (hage : cfg.max_age_days > 0)
    (ha : a.usableId = some v) (hs : v ∉ seen) (hd : a.ageDays = some g)
    (hold : g > cfg.max_age_days)
    (hlim : oc + 1 ≥ cfg.consecutive_old_limit.toNat) :
    processAds cfg (a :: rest) seen oc stats acc
      = { page_ads := acc, should_stop := true, seen := seen, stats := stats,
          trace := [a], oldCount := oc + 1 } := by
  simp [processAds, ha, hs, hage, hd, hold, hlim]

theorem processAds_reset (cfg : Config) (ad : Ad) (rest : List Ad)
    (seen : List AttrVal) (oc : Nat) (stats : Stats) (acc : List AdData)
    (v : AttrVal) (hage : cfg.max_age_days > 0) (ha : ad.usableId = some v)
    (hnot : v ∉ seen) (hyoung : isOldFor cfg ad = false) :
    processAds cfg (ad :: rest) seen oc stats acc =
      (processAds cfg rest (v :: seen) 0 stats
        (acc ++ [normalizeAd ad])).consTrace ad := by
  unfold isOldFor at hyoung
  simp only [processAds, ha]
  rw [if_neg hnot, if_pos hage]
  cases hd : ad.ageDays with
  | none => rfl
  | some g =>
    rw [hd] at hyoung
    simp only [decide_eq_false_iff_not] at hyoung
    simp [hyoung]

theorem processAds_no_stop_trace (cfg : Config) (ads : List Ad) :
    ∀ (seen : List AttrVal) (oc : Nat) (stats : Stats) (acc : List AdData),
      (processAds cfg ads seen oc stats acc).should_stop = false →
      (processAds cfg ads seen oc stats acc).trace = ads := by
  induction ads with
  | nil => intro seen oc stats acc _; rfl
  | cons a rest ih =>
    intro seen oc stats acc h
    cases ha : a.usableId with
    | none =>
      rw [processAds_cons_noId cfg a rest seen oc stats acc ha] at h ⊢
      simp only [PageOut.consTrace] at h ⊢
      rw [ih _ _ _ _ h]
    | some v =>
      by_cases hs : v ∈ seen
      · rw [processAds_cons_dup cfg a rest seen oc stats acc v ha hs] at h ⊢
        simp only [PageOut.consTrace] at h ⊢
        rw [ih _ _ _ _ h]
      · by_cases hage : cfg.max_age_days > 0
        · by_cases hold : isOldFor cfg a = true
          · unfold isOldFor at hold
            cases hd : a.ageDays with
            | none => rw [hd] at hold; simp at hold
            | some g =>
              rw [hd] at hold
              simp only [decide_eq_true_eq] at hold
              by_cases hlim : oc + 1 ≥ cfg.consecutive_old_limit.toNat
              · rw [processAds_cons_old_stop cfg a rest seen oc stats acc v g
                  hage ha hs hd hold hlim] at h
                simp at h
              · rw [processAds_cons_old_go cfg a rest seen oc stats acc v g
                  hage ha hs hd hold hlim] at h ⊢
                simp only [PageOut.consTrace] at h ⊢
                rw [ih _ _ _ _ h]
          · rw [processAds_reset cfg a rest seen oc stats acc v hage ha hs
              (Bool.eq_false_iff.mpr hold)] at h ⊢
            simp only [PageOut.consTrace] at h ⊢
            rw [ih _ _ _ _ h]
        · rw [processAds_cons_accept_noAge cfg a rest seen oc stats acc v
            hage ha hs] at h ⊢
          simp only [PageOut.consTrace] at h ⊢
          rw [ih _ _ _ _ h]

theorem processAds_append (cfg : Config) (suf : List Ad) (pre : List Ad) :
    ∀ (seen : List AttrVal) (oc : Nat) (stats : Stats) (acc : List AdData),
      (processAds cfg pre seen oc stats acc).should_stop = false →
      processAds cfg (pre ++ suf) seen oc stats acc =
        { processAds cfg suf (processAds cfg pre seen oc stats acc).seen
            (processAds cfg pre seen oc stats acc).oldCount
            (processAds cfg pre seen oc stats acc).stats
            (processAds cfg pre seen oc stats acc).page_ads with
          trace := (processAds cfg pre seen oc stats acc).trace ++
            (processAds cfg suf (processAds cfg pre seen oc stats acc).seen
              (processAds cfg pre seen oc stats acc).oldCount
              (processAds cfg pre seen oc stats acc).stats
              (processAds cfg pre seen oc stats acc).page_ads).trace } := by
  induction pre with
  | nil =>
    intro seen oc stats acc _
    simp [processAds]
  | cons a pre ih =>
    intro seen oc stats acc hpre
    cases ha : a.usableId with
    | none =>
      rw [List.cons_append,
        processAds_cons_noId cfg a (pre ++ suf) seen oc stats acc ha,
        processAds_cons_noId cfg a pre seen oc stats acc ha]
      rw [processAds_cons_noId cfg a pre seen oc stats acc ha] at hpre
      simp only [PageOut.consTrace] at hpre ⊢
      rw [ih _ _ _ _ hpre]
      simp [PageOut.consTrace]
    | some v =>
      by_cases hs : v ∈ seen
      · rw [List.cons_append,
          processAds_cons_dup cfg a (pre ++ suf) seen oc stats acc v ha hs,
          processAds_cons_dup cfg a pre seen oc stats acc v ha hs]
        rw [processAds_cons_dup cfg a pre seen oc stats acc v ha hs] at hpre
        simp only [PageOut.consTrace] at hpre ⊢
        rw [ih _ _ _ _ hpre]
        simp [PageOut.consTrace]
      · by_cases hage : cfg.max_age_days > 0
        · by_cases hold : isOldFor cfg a = true
          · unfold isOldFor at hold
            cases hd : a.ageDays with
            | none => rw [hd] at hold; simp at hold
            | some g =>
              rw [hd] at hold
              simp only [decide_eq_true_eq] at hold
              by_cases hlim : oc + 1 ≥ cfg.consecutive_old_limit.toNat
              · rw [processAds_cons_old_stop cfg a pre seen oc stats acc v g
                  hage ha hs hd hold hlim] at hpre
                simp at hpre
              · rw [List.cons_append,
                  processAds_cons_old_go cfg a (pre ++ suf) seen oc stats acc
                    v g hage ha hs hd hold hlim,
                  processAds_cons_old_go cfg a pre seen oc stats acc
                    v g hage ha hs hd hold hlim]
                rw [processAds_cons_old_go cfg a pre seen oc stats acc
                    v g hage ha hs hd hold hlim] at hpre
                simp only [PageOut.consTrace] at hpre ⊢
                rw [ih _ _ _ _ hpre]
                simp [PageOut.consTrace]
          · have hy : isOldFor cfg a = false := Bool.eq_false_iff.mpr hold
            rw [List.cons_append,
              processAds_reset cfg a (pre ++ suf) seen oc stats acc v
                hage ha hs hy,
              processAds_reset cfg a pre seen oc stats acc v hage ha hs hy]
            rw [processAds_reset cfg a pre seen oc stats acc v hage ha hs hy]
              at hpre
            simp only [PageOut.consTrace] at hpre ⊢
            rw [ih _ _ _ _ hpre]
            simp [PageOut.consTrace]
        · rw [List.cons_append,
            processAds_cons_accept_noAge cfg a (pre ++ suf) seen oc stats acc
              v hage ha hs,
            processAds_cons_accept_noAge cfg a pre seen oc stats acc
              v hage ha hs]
          rw [processAds_cons_accept_noAge cfg a pre seen oc stats acc
              v hage ha hs] at hpre
          simp only [PageOut.consTrace] at hpre ⊢
          rw [ih _ _ _ _ hpre]
          simp [PageOut.consTrace]

theorem runLoop_streak_stop (cfg : Config) (pages : Int → FetchResult)
    (fuel : Nat) (page : Int) (st : RunSt) (pre block rest : List Ad)
    (hage : cfg.max_age_days > 0)
    (hpre : (processAds cfg pre st.seen 0 st.stats []).should_stop = false)
    (hlen : (processAds cfg pre st.seen 0 st.stats []).oldCount + block.length
      = cfg.consecutive_old_limit.toNat)
    (hbne : block ≠ [])
    (hall : ∀ a ∈ block,
      qualifiesOld cfg (processAds cfg pre st.seen 0 st.stats []).seen a
        = true)
    (hpg : pages page = some (pre ++ block ++ rest))
    (hp : page ≤ maxPages cfg) :
    (runLoop cfg pages (fuel + 1) page st).fetched = st.fetched ++ [page] ∧
    (runLoop cfg pages (fuel + 1) page st).processed
      = st.processed ++ pre ++ block ∧
    (runLoop cfg pages (fuel + 1) page st).all_ads
      = st.all_ads ++ (processAds cfg pre st.seen 0 st.stats []).page_ads := by
  have hne : (pre ++ block ++ rest).isEmpty = false := by
    cases hpb : pre ++ block ++ rest with
    | nil =>
      rw [List.append_assoc] at hpb
      rcases List.append_eq_nil.mp hpb with ⟨-, h2⟩
      rcases List.append_eq_nil.mp h2 with ⟨h3, -⟩
      exact absurd h3 hbne
    | cons x l => rfl
  have hcomb : processAds cfg (pre ++ (block ++ rest)) st.seen 0 st.stats []
      = { page_ads := (processAds cfg pre st.seen 0 st.stats []).page_ads,
          should_stop := true,
          seen := (processAds cfg pre st.seen 0 st.stats []).seen,
          stats := (processAds cfg pre st.seen 0 st.stats []).stats,
          trace := pre ++ block,
          oldCount := cfg.consecutive_old_limit.toNat } := by
    rw [processAds_append cfg (block ++ rest) pre st.seen 0 st.stats [] hpre]
    rw [processAds_old_block cfg hage block rest
      (processAds cfg pre st.seen 0 st.stats []).seen
      (processAds cfg pre st.seen 0 st.stats []).oldCount
      (processAds cfg pre st.seen 0 st.stats []).stats
      (processAds cfg pre st.seen 0 st.stats []).page_ads hbne hlen hall]
    rw [processAds_no_stop_trace cfg pre st.seen 0 st.stats [] hpre]
  have hsp : scrapeSinglePage cfg st.seen st.stats (pages page)
      = { page_ads := (processAds cfg pre st.seen 0 st.stats []).page_ads,
          should_stop := true,
          seen := (processAds cfg pre st.seen 0 st.stats []).seen,
          stats := (processAds cfg pre st.seen 0 st.stats []).stats,
          trace := pre ++ block,
          oldCount := cfg.consecutive_old_limit.toNat } := by
    rw [hpg]
    simp only [scrapeSinglePage, hne, Bool.false_eq_true, ite_false]
    rw [List.append_assoc]
    exact hcomb
  rw [runLoop_one cfg pages fuel page st hp, hsp]
  rw [if_pos (Or.inl rfl)]
  refine ⟨?_, ?_, ?_⟩
  · rw [afterPage_fetched]
  · rw [afterPage_processed]
    simp [List.append_assoc]
  · rw [afterPage_all_ads]

/-- Claim C2, amended: the consecutive-old counter is local to each page (it
restarts at zero on every page boundary).  Within a single page, wherever the
streak of consecutive listings older than the threshold — each with a fresh
usable identifier — reaches the configured limit, the crawl stops
immediately: the listings after the streak are not processed, only the
records accepted before the streak are kept, and no further page is fetched.
A listing that reaches the age gate without being old (younger than the
threshold, or dateless) resets the counter to zero and is accepted. -/
theorem C2_theorem :
    (∀ (cfg : Config) (pages : Int → FetchResult) (fuel : Nat) (page : Int)
        (st : RunSt) (pre block rest : List Ad),
      cfg.max_age_days > 0 →
      (processAds cfg pre st.seen 0 st.stats []).should_stop = false →
      (processAds cfg pre st.seen 0 st.stats []).oldCount + block.length
        = cfg.consecutive_old_limit.toNat →
      block ≠ [] →
      (∀ a ∈ block,
        qualifiesOld cfg (processAds cfg pre st.seen 0 st.stats []).seen a
          = true) →
      pages page = some (pre ++ block ++ rest) →
      page ≤ maxPages cfg →
      (runLoop cfg pages (fuel + 1) page st).fetched = st.fetched ++ [page] ∧
      (runLoop cfg pages (fuel + 1) page st).processed
        = st.processed ++ pre ++ block ∧
      (runLoop cfg pages (fuel + 1) page st).all_ads
        = st.all_ads ++ (processAds cfg pre st.seen 0 st.stats []).page_ads) ∧
    (∀ (cfg : Config) (ad : Ad) (rest : List Ad) (seen : List AttrVal)
        (oc : Nat) (stats : Stats) (acc : List AdData) (v : AttrVal),
      cfg.max_age_days > 0 → ad.usableId = some v → v ∉ seen →
      isOldFor cfg ad = false →
      processAds cfg (ad :: rest) seen oc stats acc =
        (processAds cfg rest (v :: seen) 0 stats
          (acc ++ [normalizeAd ad])).consTrace ad) :=
  ⟨fun cfg pages fuel page st pre block rest hage hpre hlen hbne hall hpg hp =>
     runLoop_streak_stop cfg pages fuel page st pre block rest hage hpre hlen
       hbne hall hpg hp,
   fun cfg ad rest seen oc stats acc v hage ha hnot hyoung =>
     processAds_reset cfg ad rest seen oc stats acc v hage ha hnot hyoung⟩

/-- Witness for C2 on the spec's scenario-D shape: a fresh listing opens the
page, the five-old streak follows mid-page, the trailing listing is never
processed, only the leading record is kept, and no further page is fetched;
and a young listing resets the streak argument to zero. -/
theorem C2_witness :
    (∀ a ∈ wDBlock,
       qualifiesOld c2Cfg
         (processAds c2Cfg wDLead ({} : RunSt).seen 0 ({} : RunSt).stats []).seen
         a = true) ∧
    ((runLoop c2Cfg wDPages 1 1 {}).fetched = ({} : RunSt).fetched ++ [1] ∧
     (runLoop c2Cfg wDPages 1 1 {}).processed
       = ({} : RunSt).processed ++ wDLead ++ wDBlock ∧
     (runLoop c2Cfg wDPages 1 1 {}).all_ads
       = ({} : RunSt).all_ads
           ++ (processAds c2Cfg wDLead ({} : RunSt).seen 0
                 ({} : RunSt).stats []).page_ads) ∧
    processAds c2Cfg [adWith 16 0 "fresh"] [] 3 {} [] =
      (processAds c2Cfg [] (.vint 16 :: []) 0 {}
        ([] ++ [normalizeAd (adWith 16 0 "fresh")])).consTrace
        (adWith 16 0 "fresh") :=
  ⟨by decide,
   C2_theorem.1 c2Cfg wDPages 0 1 {} wDLead wDBlock wDRest
     (by decide) (by decide) (by decide) (by decide) (by decide) rfl
     (by decide),
   C2_theorem.2 c2Cfg (adWith 16 0 "fresh") [] [] 3 {} [] (.vint 16)
     (by decide) (by decide) (by decide) (by decide)⟩

/-- Counterexample to the original C2 claim: five consecutive old listings
(with fresh usable ids) occur in the processed stream of the run, split four
on page 1 and one on page 2, yet the crawl does not stop — pages 3 and 4 are
still fetched and a record from page 3 is emitted.  The counter is reset at
the page boundary because old_ads_count is a local variable of each
single-page scrape. -/
theorem C2_counterexample :
    ([adWith 2 10 "o2", adWith 3 10 "o3", adWith 4 10 "o4", adWith 5 10 "o5",
      adWith 6 10 "o6"].all (fun a => isOldFor c2Cfg a)) = true ∧
    c2Cfg.consecutive_old_limit = 5 ∧
    (scrape_from_url c2Cfg c2Pages).processed
      = [adWith 1 0 "f1", adWith 2 10 "o2", adWith 3 10 "o3", adWith 4 10 "o4",
         adWith 5 10 "o5", adWith 6 10 "o6", adWith 7 0 "f7",
         adWith 8 0 "f8"] ∧
    (scrape_from_url c2Cfg c2Pages).fetched = [1, 2, 3, 4] ∧
    normalizeAd (adWith 8 0 "f8") ∈ (scrape_from_url c2Cfg c2Pages).all_ads := by
  decide

/-! ## Claim C6: attribute filtering of the record normalizer -/

theorem dget_attrs_filtered_some (attrs : List (String × AttrVal)) (n : String)
    (v : AttrVal) (hnd : (attrs.map Prod.fst).Nodup) (hmem : (n, v) ∈ attrs)
    (hpub : pyStartsWith n "_" = false) (hnn : v ≠ .vnone) :
    dget (attrs.filterMap (fun p =>
        if pyStartsWith p.1 "_" || p.2 == .vnone then none
        else some (p.1, convert_to_serializable p.2))) n
      = some (convert_to_serializable v) := by
  induction attrs with
  | nil => simp at hmem
  | cons p rest ih =>
    simp only [List.map_cons, List.nodup_cons] at hnd
    rcases List.mem_cons.mp hmem with heq | hmem2
    · subst heq
      have hvn : (v == AttrVal.vnone) = false := by
        cases hbe : v == AttrVal.vnone
        · rfl
        · exact absurd (eq_of_beq hbe) hnn
      simp only [List.filterMap_cons, hpub, hvn, Bool.or_self,
        Bool.false_eq_true, ite_false]
      simp [dget]
    · have hne : p.1 ≠ n := by
        intro h
        exact hnd.1 (h ▸ List.mem_map_of_mem Prod.fst hmem2)
      simp only [List.filterMap_cons]
      by_cases hcond : (pyStartsWith p.1 "_" || p.2 == AttrVal.vnone) = true
      · simp only [hcond, ite_true]
        exact ih hnd.2 hmem2
      · have hcf : (pyStartsWith p.1 "_" || p.2 == AttrVal.vnone) = false :=
          Bool.eq_false_iff.mpr hcond
        simp only [hcf, Bool.false_eq_true, ite_false]
        simp only [dget, if_neg hne]
        exact ih hnd.2 hmem2

theorem dget_attrs_filtered_private (attrs : List (String × AttrVal))
    (n : String) (hpriv : pyStartsWith n "_" = true) :
    dget (attrs.filterMap (fun p =>
        if pyStartsWith p.1 "_" || p.2 == .vnone then none
        else some (p.1, convert_to_serializable p.2))) n = none := by
  induction attrs with
  | nil => rfl
  | cons p rest ih =>
    simp only [List.filterMap_cons]
    by_cases hcond : (pyStartsWith p.1 "_" || p.2 == AttrVal.vnone) = true
    · simp only [hcond, ite_true]
      exact ih
    · have hcf : (pyStartsWith p.1 "_" || p.2 == AttrVal.vnone) = false :=
        Bool.eq_false_iff.mpr hcond
      have hne : p.1 ≠ n := by
        intro h
        rw [h, hpriv] at hcf
        simp at hcf
      simp only [hcf, Bool.false_eq_true, ite_false]
      simp only [dget, if_neg hne]
      exact ih

theorem dget_idEntry_ne (ad : Ad) (n : String) (hn : n ≠ "id") :
    dget (match ad.id with
          | some v => if v ≠ .vnone then [("id", convert_to_serializable v)]
                      else []
          | none => []) n = none := by
  cases ad.id with
  | none => rfl
  | some v =>
    split
    · split <;> simp [dget, Ne.symm hn]
    · rfl

theorem dget_dateEntry_ne (ad : Ad) (n : String)
    (hn : n ≠ "first_publication_date") :
    dget (match ad.first_publication_date with
          | some a =>
            [("first_publication_date", convert_to_serializable (.vdate a))]
          | none => []) n = none := by
  cases ad.first_publication_date with
  | none => rfl
  | some a => simp [dget, Ne.symm hn]

theorem normalizeAd_public_mem (ad : Ad) (n : String) (v : AttrVal)
    (hnd : (ad.attrs.map Prod.fst).Nodup) (hmem : (n, v) ∈ ad.attrs)
    (hpub : pyStartsWith n "_" = false) (hnn : v ≠ .vnone)
    (hn1 : n ≠ "id") (hn2 : n ≠ "first_publication_date")
    (hn3 : n ≠ "scraped_at") (hn4 : n ≠ "search_category")
    (hn5 : n ≠ "search_location") :
    dget (normalizeAd ad) n = some (convert_to_serializable v) := by
  simp only [normalizeAd, create_detailed_ad]
  rw [dget_dput_ne _ _ _ _ (Ne.symm hn5), dget_dput_ne _ _ _ _ (Ne.symm hn4),
    dget_dput_ne _ _ _ _ (Ne.symm hn3)]
  have h12 : dget ((match ad.id with
      | some v => if v ≠ .vnone then [("id", convert_to_serializable v)]
                  else []
      | none => []) ++
      (match ad.first_publication_date with
       | some a =>
         [("first_publication_date", convert_to_serializable (.vdate a))]
       | none => [])) n = none := by
    rw [dget_append_of_none _ _ _ (dget_idEntry_ne ad n hn1)]
    exact dget_dateEntry_ne ad n hn2
  rw [dget_append_of_none _ _ _ h12]
  exact dget_attrs_filtered_some ad.attrs n v hnd hmem hpub hnn

theorem normalizeAd_private (ad : Ad) (n : String)
    (hpriv : pyStartsWith n "_" = true) :
    dget (normalizeAd ad) n = none := by
  have hn1 : n ≠ "id" := by
    intro h; rw [h] at hpriv; exact absurd hpriv (by decide)
  have hn2 : n ≠ "first_publication_date" := by
    intro h; rw [h] at hpriv; exact absurd hpriv (by decide)
  have hn3 : n ≠ "scraped_at" := by
    intro h; rw [h] at hpriv; exact absurd hpriv (by decide)
  have hn4 : n ≠ "search_category" := by
    intro h; rw [h] at hpriv; exact absurd hpriv (by decide)
  have hn5 : n ≠ "search_location" := by
    intro h; rw [h] at hpriv; exact absurd hpriv (by decide)
  simp only [normalizeAd, create_detailed_ad]
  rw [dget_dput_ne _ _ _ _ (Ne.symm hn5), dget_dput_ne _ _ _ _ (Ne.symm hn4),
    dget_dput_ne _ _ _ _ (Ne.symm hn3)]
  have h12 : dget ((match ad.id with
      | some v => if v ≠ .vnone then [("id", convert_to_serializable v)]
                  else []
      | none => []) ++
      (match ad.first_publication_date with
       | some a =>
         [("first_publication_date", convert_to_serializable (.vdate a))]
       | none => [])) n = none := by
    rw [dget_append_of_none _ _ _ (dget_idEntry_ne ad n hn1)]
    exact dget_dateEntry_ne ad n hn2
  rw [dget_append_of_none _ _ _ h12]
  exact dget_attrs_filtered_private ad.attrs n hpriv

theorem normalizeAd_attrsOnly_isSome (n : String)
    (hpub : pyStartsWith n "_" = false) :
    (dget (normalizeAd { attrs := [(n, .vint 1)] }) n).isSome = true := by
  simp only [normalizeAd, create_detailed_ad]
  by_cases h5 : n = "search_location"
  · subst h5; rw [dget_dput_self]; rfl
  · rw [dget_dput_ne _ _ _ _ (Ne.symm h5)]
    by_cases h4 : n = "search_category"
    · subst h4; rw [dget_dput_self]; rfl
    · rw [dget_dput_ne _ _ _ _ (Ne.symm h4)]
      by_cases h3 : n = "scraped_at"
      · subst h3; rw [dget_dput_self]; rfl
      · rw [dget_dput_ne _ _ _ _ (Ne.symm h3)]
        show (dget ([(n, AttrVal.vint 1)].filterMap (fun p =>
          if pyStartsWith p.1 "_" || p.2 == AttrVal.vnone then none
          else some (p.1, convert_to_serializable p.2))) n).isSome = true
        simp [List.filterMap_cons, hpub, dget]

/-- Claim C6, amended: the record normalizer has no deny-list.  Every public
(not underscore-prefixed) non-null attribute of a listing appears in the
normalized record with its converted value (when its name does not collide
with the engine-owned `id`/`first_publication_date`/metadata fields), and the
only names always excluded are the underscore-prefixed (private) ones. -/
theorem C6_theorem :
    (∀ (ad : Ad) (n : String) (v : AttrVal),
      (ad.attrs.map Prod.fst).Nodup →
      (n, v) ∈ ad.attrs →
      pyStartsWith n "_" = false →
      v ≠ .vnone →
      n ≠ "id" → n ≠ "first_publication_date" →
      n ≠ "scraped_at" → n ≠ "search_category" → n ≠ "search_location" →
      dget (normalizeAd ad) n = some (convert_to_serializable v)) ∧
    (∀ (ad : Ad) (n : String),
      pyStartsWith n "_" = true → dget (normalizeAd ad) n = none) :=
  ⟨fun ad n v hnd hmem hpub hnn hn1 hn2 hn3 hn4 hn5 =>
     normalizeAd_public_mem ad n v hnd hmem hpub hnn hn1 hn2 hn3 hn4 hn5,
   fun ad n hpriv => normalizeAd_private ad n hpriv⟩

/-- Witness for C6: a public attribute `brand` is kept, a private attribute
`_internal` is dropped. -/
theorem C6_witness :
    dget (normalizeAd { attrs := [("brand", .vstr "BMW"),
        ("_internal", .vstr "x")] }) "brand"
      = some (convert_to_serializable (.vstr "BMW")) ∧
    dget (normalizeAd { attrs := [("brand", .vstr "BMW"),
        ("_internal", .vstr "x")] }) "_internal" = none :=
  ⟨C6_theorem.1 { attrs := [("brand", .vstr "BMW"), ("_internal", .vstr "x")] }
      "brand" (.vstr "BMW") (by decide) (by decide) (by decide) (by decide)
      (by decide) (by decide) (by decide) (by decide) (by decide),
   C6_theorem.2 { attrs := [("brand", .vstr "BMW"), ("_internal", .vstr "x")] }
      "_internal" (by decide)⟩

/-- Claim C6 as stated is false: there is no fixed, non-empty deny-list of
public attribute names that the normalizer always excludes — for any candidate
list, a listing carrying the list's first name as a public non-null attribute
yields a record in which that name is present (the normalizer copies every
public non-null attribute; only underscore-prefixed names are dropped). -/
theorem C6_counterexample :
    ¬ ∃ denyList : List String,
        denyList ≠ [] ∧
        (∀ n ∈ denyList, pyStartsWith n "_" = false) ∧
        (∀ (ad : Ad) (n : String), n ∈ denyList →
          dget (normalizeAd ad) n = none) := by
  rintro ⟨denyList, hne, hpub, hex⟩
  cases denyList with
  | nil => exact hne rfl
  | cons n rest =>
    have hp := hpub n (List.mem_cons_self n rest)
    have h := hex { attrs := [(n, .vint 1)] } n (List.mem_cons_self n rest)
    have hsome := normalizeAd_attrsOnly_isSome n hp
    rw [h] at hsome
    cases hsome

/-! ## Claim C3: price-range parsing round-trip -/

theorem parseKV_snd (sc kw : SearchConfig) (key value : String) :
    (parseKV sc kw key value).2 = kw ∨
    ∃ x : SVal, (parseKV sc kw key value).2 = dput kw key x := by
  delta parseKV
  by_cases h1 : (key == "text") = true
  · rw [if_pos h1]; exact Or.inl rfl
  rw [if_neg h1]
  by_cases h2 : (key == "category") = true
  · rw [if_pos h2]; cases pyInt? value <;> exact Or.inl rfl
  rw [if_neg h2]
  by_cases h3 : (key == "locations") = true
  · rw [if_pos h3]
    by_cases hl : ((parseLocations value).isEmpty) = true
    · rw [if_pos hl]; exact Or.inl rfl
    · rw [if_neg hl]; exact Or.inl rfl
  rw [if_neg h3]
  by_cases h4 : (key == "owner_type") = true
  · rw [if_pos h4]
    by_cases ha : (value == "private") = true
    · rw [if_pos ha]; exact Or.inl rfl
    · rw [if_neg ha]
      by_cases hb : (value == "pro") = true
      · rw [if_pos hb]; exact Or.inl rfl
      · rw [if_neg hb]; exact Or.inl rfl
  rw [if_neg h4]
  by_cases h5 : (key == "sort") = true
  · rw [if_pos h5]; cases sortMap value <;> exact Or.inl rfl
  rw [if_neg h5]
  by_cases h6 : (key == "order") = true
  · rw [if_pos h6]
    by_cases ha : (value == "desc") = true
    · rw [if_pos ha]
      by_cases hc : dget sc "sort" = some (SVal.ssort LbcSort.EXPENSIVE)
      · rw [if_pos hc]; exact Or.inl rfl
      · rw [if_neg hc]; exact Or.inl rfl
    · rw [if_neg ha]
      by_cases hb : (value == "asc") = true
      · rw [if_pos hb]
        by_cases hc : dget sc "sort" = some (SVal.ssort LbcSort.CHEAPEST)
        · rw [if_pos hc]; exact Or.inl rfl
        · rw [if_neg hc]; exact Or.inl rfl
      · rw [if_neg hb]; exact Or.inl rfl
  rw [if_neg h6]
  by_cases h7 : (key == "ad_type") = true
  · rw [if_pos h7]
    by_cases ha : (value == "offer") = true
    · rw [if_pos ha]; exact Or.inl rfl
    · rw [if_neg ha]
      by_cases hb : (value == "demand") = true
      · rw [if_pos hb]; exact Or.inl rfl
      · rw [if_neg hb]; exact Or.inl rfl
  rw [if_neg h7]
  by_cases h8 : (key == "shippable") = true
  · rw [if_pos h8]
    by_cases ha : (value == "1") = true
    · rw [if_pos ha]; exact Or.inl rfl
    · rw [if_neg ha]; exact Or.inl rfl
  rw [if_neg h8]
  by_cases h9 : (key == "page") = true
  · rw [if_pos h9]; exact Or.inl rfl
  rw [if_neg h9]
  cases parseGenericValue value with
  | grange a b => exact Or.inr ⟨.srange a b, rfl⟩
  | glist xs => exact Or.inr ⟨.slist xs, rfl⟩
  | gint n => exact Or.inr ⟨.slist [toString n], rfl⟩
  | gstr s2 => exact Or.inr ⟨.slist [s2], rfl⟩

theorem parseKV_kw_price (sc kw : SearchConfig) (key value : String)
    (hkey : key ≠ "price") :
    dget (parseKV sc kw key value).2 "price" = dget kw "price" := by
  rcases parseKV_snd sc kw key value with h | ⟨x, h⟩
  · rw [h]
  · rw [h]
    exact dget_dput_ne _ _ _ _ hkey

theorem parseKV_kw_nodup (sc kw : SearchConfig) (key value : String)
    (h : (kw.map Prod.fst).Nodup) :
    (((parseKV sc kw key value).2).map Prod.fst).Nodup := by
  rcases parseKV_snd sc kw key value with heq | ⟨x, heq⟩
  · rw [heq]; exact h
  · rw [heq]; exact dput_keys_nodup _ _ _ h

theorem parseStep_kw_price (acc : SearchConfig × SearchConfig) (arg : String)
    (hk : keyIsNot "price" arg = true) :
    dget (parseStep acc arg).2 "price" = dget acc.2 "price" := by
  unfold parseStep
  cases hsp : splitEq1 arg with
  | none => rfl
  | some kv =>
    obtain ⟨key, rawv⟩ := kv
    have hkey : key ≠ "price" := by
      unfold keyIsNot at hk
      rw [hsp] at hk
      simpa using hk
    obtain ⟨sc, kw⟩ := acc
    exact parseKV_kw_price sc kw key (unquote rawv) hkey

theorem parseStep_kw_nodup (acc : SearchConfig × SearchConfig) (arg : String)
    (h : (acc.2.map Prod.fst).Nodup) :
    (((parseStep acc arg).2).map Prod.fst).Nodup := by
  unfold parseStep
  cases hsp : splitEq1 arg with
  | none => exact h
  | some kv =>
    obtain ⟨key, rawv⟩ := kv
    obtain ⟨sc, kw⟩ := acc
    exact parseKV_kw_nodup sc kw key (unquote rawv) h

theorem foldl_kw_price (args : List String)
    (h : ∀ arg ∈ args, keyIsNot "price" arg = true) :
    ∀ acc : SearchConfig × SearchConfig,
      dget (args.foldl parseStep acc).2 "price" = dget acc.2 "price" := by
  induction args with
  | nil => intro acc; rfl
  | cons a args ih =>
    intro acc
    rw [List.foldl_cons,
      ih (fun arg ha => h arg (List.mem_cons_of_mem a ha)) (parseStep acc a)]
    exact parseStep_kw_price acc a (h a (List.mem_cons_self a args))

theorem foldl_kw_nodup (args : List String) :
    ∀ acc : SearchConfig × SearchConfig,
      (acc.2.map Prod.fst).Nodup →
      (((args.foldl parseStep acc).2).map Prod.fst).Nodup := by
  induction args with
  | nil => intro acc h; exact h
  | cons a args ih =>
    intro acc h
    rw [List.foldl_cons]
    exact ih (parseStep acc a) (parseStep_kw_nodup acc a h)

theorem finishConfig_price (p : SearchConfig × SearchConfig) (lo hi : Int)
    (hnd : (p.2.map Prod.fst).Nodup)
    (hkw : dget p.2 "price" = some (.srange lo hi)) :
    dget (finishConfig p) "price" = some (.srange lo hi) := by
  unfold finishConfig
  rw [dget_dsetdefault_ne _ _ _ _ (by decide : "limit" ≠ "price"),
    dget_dsetdefault_ne _ _ _ _ (by decide : "ad_type" ≠ "price"),
    dget_dsetdefault_ne _ _ _ _ (by decide : "sort" ≠ "price")]
  have hne : p.2 ≠ [] := dget_ne_nil_of_some _ _ _ hkw
  have hie : p.2.isEmpty = false := by
    cases hp2 : p.2 with
    | nil => exact absurd hp2 hne
    | cons q l => rfl
  simp only [hie, Bool.false_eq_true, ite_false]
  exact dget_dupdate_of_some p.2 "price" _ hnd hkw p.1

theorem price_pipeline (parg : String) (lo hi : Int)
    (hstep : ∀ acc : SearchConfig × SearchConfig,
      parseStep acc parg = (acc.1, dput acc.2 "price" (.srange lo hi)))
    (l1 l2 : List String)
    (h2 : ∀ arg ∈ l2, keyIsNot "price" arg = true) :
    dget (finishConfig (processArgs (l1 ++ [parg] ++ l2))) "price"
      = some (.srange lo hi) := by
  unfold processArgs
  rw [List.foldl_append, List.foldl_append, List.foldl_cons, List.foldl_nil,
    hstep (List.foldl parseStep ([], []) l1)]
  apply finishConfig_price
  · exact foldl_kw_nodup l2 _
      (dput_keys_nodup _ _ _ (foldl_kw_nodup l1 ([], []) (by simp)))
  · rw [foldl_kw_price l2 h2]
    exact dget_dput_self _ _ _

/-- Claim C3: in a built SearchQuery, the last `price` query parameter
determines the range stored under the `price` key: `min-1600` yields (0, 1600),
`2020-max` yields (2020, 9999999) — the parser's large sentinel upper bound —
and `100-200` yields exactly (100, 200); this holds with arbitrary other
parameters around it, and on full search URLs. -/
theorem C3_theorem (l1 l2 : List String)
    (h2 : ∀ arg ∈ l2, keyIsNot "price" arg = true) :
    dget (finishConfig (processArgs (l1 ++ ["price=min-1600"] ++ l2))) "price"
      = some (.srange 0 1600) ∧
    dget (finishConfig (processArgs (l1 ++ ["price=2020-max"] ++ l2))) "price"
      = some (.srange 2020 9999999) ∧
    dget (finishConfig (processArgs (l1 ++ ["price=100-200"] ++ l2))) "price"
      = some (.srange 100 200) ∧
    dget (parse_url_to_search_config
      "https://www.leboncoin.fr/recherche?price=min-1600") "price"
      = some (.srange 0 1600) ∧
    dget (parse_url_to_search_config
      "https://www.leboncoin.fr/recherche?price=2020-max") "price"
      = some (.srange 2020 9999999) ∧
    dget (parse_url_to_search_config
      "https://www.leboncoin.fr/recherche?price=100-200") "price"
      = some (.srange 100 200) := by
  refine ⟨?_, ?_, ?_, rfl, rfl, rfl⟩
  · exact price_pipeline "price=min-1600" 0 1600
      (fun acc => by obtain ⟨sc, kw⟩ := acc; rfl) l1 l2 h2
  · exact price_pipeline "price=2020-max" 2020 9999999
      (fun acc => by obtain ⟨sc, kw⟩ := acc; rfl) l1 l2 h2
  · exact price_pipeline "price=100-200" 100 200
      (fun acc => by obtain ⟨sc, kw⟩ := acc; rfl) l1 l2 h2

/-- Witness for C3 with concrete surrounding parameters. -/
theorem C3_witness :
    (∀ arg ∈ c3Right, keyIsNot "price" arg = true) ∧
    dget (finishConfig (processArgs
        (c3Left ++ ["price=min-1600"] ++ c3Right))) "price"
      = some (.srange 0 1600) :=
  ⟨by decide, (C3_theorem c3Left c3Right (by decide)).1⟩

end Leboncoin
